/-
Verification development for the `forest` IoT platform (Rust).

We shallowly embed the core data model and operations of the repository in
Lean 4 and prove (or refute) the specification's claims against them.

Rust strings are modelled as lists of characters (`Str := List Char`), so
that string operations such as splitting on a separator, prefix stripping
and prefix tests can be reasoned about by induction.  `u64` timestamps are
modelled as `Nat`, `i64` as `Int`, and `f64` payload numbers as the exact
rational values they denote (`Rat`); floating-point rounding plays no role
in any claim considered here.

Sources embedded below (file ↦ section):
  src/processor/topics.rs      ↦ topic classification (`get_topic_type`)
  src/dataconfig.rs            ↦ `DataConfig`, `merge_with`, `extract_metrics_from_json`
  src/db/mod.rs                ↦ `get_data_config`, `verify_device_password`
  src/mqtt/auth.rs             ↦ the broker auth hook
  src/mqtt/messages.rs, server.rs ↦ `MqttSender::publish` over the flume channel
  src/timeseries.rs            ↦ `TimeSeries<T>`
  src/models.rs                ↦ `TenantId` / `ShadowName` / `Tenant` / `AuthConfig`
  shadow engine (§4.2 of the spec) ↦ modelled from the spec (its module is
  absent from the source tree; only its tests are present).
-/
import Mathlib

namespace Forest

/-- Rust `String` / `&str`, modelled as its list of characters. -/
abbrev Str := List Char

/-- Split a list of characters at every occurrence of `sep`, like Rust's
`str::split(sep)`: the empty string yields `[[]]`, a trailing separator
yields a trailing empty segment. -/
def splitOn (sep : Char) : Str → List Str
  | [] => [[]]
  | c :: cs =>
    match splitOn sep cs with
    | [] => [[]]
    | seg :: segs => if c = sep then [] :: seg :: segs else (c :: seg) :: segs

/-- Rust's `str::split_once(sep)`: split at the first occurrence of `sep`,
`none` when `sep` does not occur. -/
def splitOnce (sep : Char) : Str → Option (Str × Str)
  | [] => none
  | c :: cs =>
    if c = sep then some ([], cs)
    else (splitOnce sep cs).map (fun p => (c :: p.1, p.2))

/-- Rust's `str::strip_prefix`: remove `p` from the front of `s` when `p`
is a prefix of `s`. -/
def stripStart (p s : Str) : Option Str :=
  if p.isPrefixOf s then some (s.drop p.length) else none

/-- Rust's `str::to_lowercase` (ASCII-faithful; the tenant sentinel
`"default"` is ASCII). -/
def lowercase (s : Str) : Str := s.map Char.toLower

end Forest

namespace Forest

/-! ### src/models.rs : `DefaultString` (= `TenantId` = `ShadowName`),
`AuthConfig`, `Tenant` -/

/-- `models.rs::DefaultString`: either the sentinel `Default` or a custom
string. -/
inductive DefaultString where
  | default
  | custom (name : Str)
  deriving DecidableEq, Repr

abbrev TenantId := DefaultString
abbrev ShadowName := DefaultString

/-- `DefaultString::new` / `from_str`: `"default"`, case-insensitively, is
the sentinel. -/
def DefaultString.fromStr (s : Str) : DefaultString :=
  if lowercase s = "default".toList then .default else .custom s

/-- `DefaultString::as_str` / `Display`. -/
def DefaultString.asStr : DefaultString → Str
  | .default => "default".toList
  | .custom name => name

/-- `models.rs::AuthConfig`. -/
structure AuthConfig where
  allow_passwords : Bool
  allow_certificates : Bool
  deriving DecidableEq, Repr

/-- `impl Default for AuthConfig`: passwords disabled, certificates
enabled. -/
def AuthConfig.defaultConfig : AuthConfig :=
  { allow_passwords := false, allow_certificates := true }

/-- `models.rs::Tenant`. -/
structure Tenant where
  tenant_id : TenantId
  auth_config : AuthConfig
  created_at : Nat
  deriving DecidableEq, Repr

/-- `Tenant::new` (the `created_at` wall-clock read is passed in
explicitly). -/
def Tenant.new (id : TenantId) (now : Nat) : Tenant :=
  { tenant_id := id, auth_config := AuthConfig.defaultConfig, created_at := now }

end Forest

namespace Forest

/-! ### JSON values (`serde_json::Value`)

Numbers keep serde_json's tag distinguishing integer-represented numbers
from float-represented ones (`as_i64` is `none` on the latter), with the
float payload modelled as the exact rational it denotes.  Objects are
association lists in insertion order; serde_json maps never contain
duplicate keys, which appears below as a `Nodup` hypothesis where a proof
needs it. -/

inductive JNum where
  | int (i : Int)
  | float (q : Rat)
  deriving DecidableEq, Repr

inductive Value where
  | null
  | bool (b : Bool)
  | num (n : JNum)
  | str (s : Str)
  | arr (elems : List Value)
  | obj (entries : List (Str × Value))

mutual

def Value.decEq : (a b : Value) → Decidable (a = b)
  | .null, .null => isTrue rfl
  | .bool x, .bool y =>
    if h : x = y then isTrue (by rw [h]) else isFalse (by intro hh; cases hh; exact h rfl)
  | .num x, .num y =>
    if h : x = y then isTrue (by rw [h]) else isFalse (by intro hh; cases hh; exact h rfl)
  | .str x, .str y =>
    if h : x = y then isTrue (by rw [h]) else isFalse (by intro hh; cases hh; exact h rfl)
  | .arr x, .arr y =>
    match Value.decEqList x y with
    | isTrue h => isTrue (by rw [h])
    | isFalse h => isFalse (by intro hh; cases hh; exact h rfl)
  | .obj x, .obj y =>
    match Value.decEqObj x y with
    | isTrue h => isTrue (by rw [h])
    | isFalse h => isFalse (by intro hh; cases hh; exact h rfl)
  | .null, .bool _ | .null, .num _ | .null, .str _ | .null, .arr _ | .null, .obj _
  | .bool _, .null | .bool _, .num _ | .bool _, .str _ | .bool _, .arr _ | .bool _, .obj _
  | .num _, .null | .num _, .bool _ | .num _, .str _ | .num _, .arr _ | .num _, .obj _
  | .str _, .null | .str _, .bool _ | .str _, .num _ | .str _, .arr _ | .str _, .obj _
  | .arr _, .null | .arr _, .bool _ | .arr _, .num _ | .arr _, .str _ | .arr _, .obj _
  | .obj _, .null | .obj _, .bool _ | .obj _, .num _ | .obj _, .str _ | .obj _, .arr _ =>
    isFalse (fun h => Value.noConfusion h)

def Value.decEqList : (a b : List Value) → Decidable (a = b)
  | [], [] => isTrue rfl
  | [], _ :: _ => isFalse (fun h => List.noConfusion h)
  | _ :: _, [] => isFalse (fun h => List.noConfusion h)
  | x :: xs, y :: ys =>
    match Value.decEq x y, Value.decEqList xs ys with
    | isTrue h1, isTrue h2 => isTrue (by rw [h1, h2])
    | isFalse h1, _ => isFalse (by intro hh; cases hh; exact h1 rfl)
    | _, isFalse h2 => isFalse (by intro hh; cases hh; exact h2 rfl)

def Value.decEqObj : (a b : List (Str × Value)) → Decidable (a = b)
  | [], [] => isTrue rfl
  | [], _ :: _ => isFalse (fun h => List.noConfusion h)
  | _ :: _, [] => isFalse (fun h => List.noConfusion h)
  | (k, v) :: xs, (k2, v2) :: ys =>
    match inferInstanceAs (Decidable (k = k2)), Value.decEq v v2, Value.decEqObj xs ys with
    | isTrue hk, isTrue h1, isTrue h2 => isTrue (by rw [hk, h1, h2])
    | isFalse hk, _, _ => isFalse (by intro hh; cases hh; exact hk rfl)
    | _, isFalse h1, _ => isFalse (by intro hh; cases hh; exact h1 rfl)
    | _, _, isFalse h2 => isFalse (by intro hh; cases hh; exact h2 rfl)

end

instance : DecidableEq Value := Value.decEq

end Forest

namespace Forest

/-! ### JSON object / number / pointer operations (serde_json semantics) -/

/-- `Map::get`: the value bound to key `k` (first binding; serde maps have
no duplicate keys). -/
def objGet (entries : List (Str × Value)) (k : Str) : Option Value :=
  (entries.find? (fun kv => kv.1 = k)).map (fun kv => kv.2)

/-- `Map::insert` on an order-preserving map: replace the binding of `k`
in place, or append a new binding at the end. -/
def objInsert (entries : List (Str × Value)) (k : Str) (v : Value) :
    List (Str × Value) :=
  match entries with
  | [] => [(k, v)]
  | (k0, v0) :: rest =>
    if k0 = k then (k, v) :: rest else (k0, v0) :: objInsert rest k v

/-- `Map::remove`. -/
def objRemove (entries : List (Str × Value)) (k : Str) : List (Str × Value) :=
  entries.filter (fun kv => ¬ kv.1 = k)

/-- `Value::as_f64`: any JSON number (integers included), viewed as a
rational. -/
def Value.asF64 : Value → Option Rat
  | .num (.int i) => some (i : Rat)
  | .num (.float q) => some q
  | _ => none

/-- `Value::as_i64`: only integer-represented JSON numbers. -/
def Value.asI64 : Value → Option Int
  | .num (.int i) => some i
  | _ => none

/-- Rust's `f64 as i64` on the values at hand: truncation toward zero. -/
def ratTruncToInt (q : Rat) : Int :=
  if 0 ≤ q then q.floor else q.ceil

/-- `value[key]` (the `Index<&str>` impl): `Null` when `value` is not an
object or the key is absent. -/
def Value.idxStr (v : Value) (k : Str) : Value :=
  match v with
  | .obj entries => (objGet entries k).getD .null
  | _ => .null

/-- `value[i]` (the `Index<usize>` impl): `Null` when `value` is not an
array or the index is out of bounds. -/
def Value.idxNat (v : Value) (i : Nat) : Value :=
  match v with
  | .arr elems => (elems.get? i).getD .null
  | _ => .null

/-- serde_json's array-index parsing for JSON pointers: plain decimal
digits, no sign, no leading zeros (except `"0"` itself). -/
def parseArrayIndex (tok : Str) : Option Nat :=
  match tok with
  | [] => none
  | ['0'] => some 0
  | '0' :: _ :: _ => none
  | _ =>
    if tok.all Char.isDigit then
      some (tok.foldl (fun acc c => acc * 10 + (c.toNat - '0'.toNat)) 0)
    else none

/-- JSON-pointer token unescaping: `~1` ↦ `/`, then `~0` ↦ `~`. -/
def unescapeTok : Str → Str
  | [] => []
  | '~' :: '1' :: rest => '/' :: unescapeTok rest
  | '~' :: '0' :: rest => '~' :: unescapeTok rest
  | c :: rest => c :: unescapeTok rest

/-- Resolve an unescaped token path against a value. -/
def Value.resolvePath : Value → List Str → Option Value
  | v, [] => some v
  | .obj entries, tok :: rest =>
    (objGet entries tok).bind (fun v => Value.resolvePath v rest)
  | .arr elems, tok :: rest =>
    (parseArrayIndex tok).bind fun i =>
      (elems.get? i).bind (fun v => Value.resolvePath v rest)
  | _, _ :: _ => none

/-- `Value::pointer` (RFC 6901): the empty pointer is the whole document,
other pointers must start with `/`. -/
def Value.pointer (v : Value) (p : Str) : Option Value :=
  match p with
  | [] => some v
  | '/' :: rest => v.resolvePath ((splitOn '/' rest).map unescapeTok)
  | _ => none

end Forest

namespace Forest

/-! ### src/processor/topics.rs : topic classification -/

abbrev DeviceId := Str

/-- `topics.rs::TopicType`.  (The enum in `topics.rs` has exactly these
four constructors; in particular it has no `TimeRequest` variant.) -/
inductive TopicType where
  | shadowUpdate (tenant : TenantId) (device : DeviceId) (name : ShadowName)
  | dataUpdate (tenant : TenantId) (device : DeviceId)
  | shadowDelta (tenant : TenantId) (device : DeviceId) (name : ShadowName)
  | other
  deriving DecidableEq, Repr

/-- `topics.rs::split_device_id`: split at the first `.` into tenant and
device; without a `.` the tenant is `Default`. -/
def splitDeviceId (device_id : Str) : TenantId × DeviceId :=
  match splitOnce '.' device_id with
  | some (tenant_str, dev) => (DefaultString.fromStr tenant_str, dev)
  | none => (.default, device_id)

/-- The inner loop of the telemetry-pattern check in `get_topic_type`:
walk pattern segments and topic segments in lockstep (the code first
checks the two lists have equal length, which the lockstep walk
subsumes).  `none` = mismatch; `some none` = all segments matched but the
pattern has no `+`; `some (some dev)` = matched, `dev` is the topic
segment at the pattern's first `+`. -/
def matchSegs : List Str → List Str → Option (Option Str)
  | [], [] => some none
  | p :: ps, t :: ts =>
    if p = "+".toList then
      match matchSegs ps ts with
      | none => none
      | some _ => some (some t)
    else if p = t then matchSegs ps ts
    else none
  | _, _ => none

/-- The telemetry-pattern loop of `get_topic_type`: return the extracted
device of the first pattern that matches *and* yields a device; a pattern
that matches but has no `+` falls through to the next pattern (the code
only returns inside `if let Some(device_id_str) = extracted_device_id`). -/
def findTelemetry (patterns : List Str) (topic : Str) : Option Str :=
  match patterns with
  | [] => none
  | p :: ps =>
    match matchSegs (splitOn '/' p) (splitOn '/' topic) with
    | some (some dev) => some dev
    | _ => findTelemetry ps topic

/-- `topics.rs::get_topic_type` (the shadow grammar applies after the
telemetry check and after stripping `shadow_topic_prefix`). -/
def getTopicType (telemetry_topics : List Str) (shadowTopicPre : Str)
    (topic : Str) : TopicType :=
  match findTelemetry telemetry_topics topic with
  | some dev =>
    let td := splitDeviceId dev
    .dataUpdate td.1 td.2
  | none =>
    match stripStart shadowTopicPre topic with
    | none => .other
    | some shadow_topic =>
      match splitOn '/' shadow_topic with
      | [d, x] =>
        if x = "data".toList then
          let td := splitDeviceId d
          .dataUpdate td.1 td.2
        else .other
      | [d, x, y] =>
        if x = "shadow".toList ∧ y = "update".toList then
          let td := splitDeviceId d
          .shadowUpdate td.1 td.2 .default
        else .other
      | [d, x, n, y] =>
        if x = "shadow".toList ∧ y = "update".toList then
          let td := splitDeviceId d
          .shadowUpdate td.1 td.2 (DefaultString.fromStr n)
        else if x = "shadow".toList ∧ n = "update".toList ∧ y = "delta".toList then
          let td := splitDeviceId d
          .shadowDelta td.1 td.2 .default
        else .other
      | [d, x, n, y, z] =>
        if x = "shadow".toList ∧ y = "update".toList ∧ z = "delta".toList then
          let td := splitDeviceId d
          .shadowDelta td.1 td.2 (DefaultString.fromStr n)
        else .other
      | _ => .other

/-- Spec §4.4, transcribed from the topic-grammar table: classification of
a topic by the post-prefix shadow grammar alone.  Used to compare the code
against the specified grammar. -/
def grammarSpec (shadowTopicPre : Str) (topic : Str) : TopicType :=
  match stripStart shadowTopicPre topic with
  | none => .other
  | some rest =>
    match splitOn '/' rest with
    | [d, x] =>
      if x = "data".toList then
        let td := splitDeviceId d
        .dataUpdate td.1 td.2
      else .other
    | [d, x, y] =>
      if x = "shadow".toList ∧ y = "update".toList then
        let td := splitDeviceId d
        .shadowUpdate td.1 td.2 .default
      else .other
    | [d, x, n, y] =>
      if x = "shadow".toList ∧ n = "update".toList ∧ y = "delta".toList then
        let td := splitDeviceId d
        .shadowDelta td.1 td.2 .default
      else if x = "shadow".toList ∧ y = "update".toList then
        let td := splitDeviceId d
        .shadowUpdate td.1 td.2 (DefaultString.fromStr n)
      else .other
    | [d, x, n, y, z] =>
      if x = "shadow".toList ∧ y = "update".toList ∧ z = "delta".toList then
        let td := splitDeviceId d
        .shadowDelta td.1 td.2 (DefaultString.fromStr n)
      else .other
    | _ => .other

/-- Spec-side MQTT single-level-wildcard match: equal segment counts and
each pattern segment is `+` or equal to the topic segment. -/
def segsMatchSpec : List Str → List Str → Bool
  | [], [] => true
  | p :: ps, t :: ts => (p = "+".toList ∨ p = t : Bool) && segsMatchSpec ps ts
  | _, _ => false

/-- Whether a classification is a `DataUpdate` (used to state C9). -/
def TopicType.isDataUpdate : TopicType → Bool
  | .dataUpdate _ _ => true
  | _ => false

/-- Spec-side capture: the topic segment aligned with the first `+` of the
pattern. -/
def firstPlusCapture : List Str → List Str → Option Str
  | p :: ps, t :: ts => if p = "+".toList then some t else firstPlusCapture ps ts
  | _, _ => none

end Forest

namespace Forest

/-! ### src/timeseries.rs : `MetricValue` (needed by dataconfig) -/

/-- `timeseries.rs::LatLong`. -/
structure LatLong where
  latitude : Rat
  longitude : Rat
  deriving DecidableEq, Repr

/-- `timeseries.rs::MetricValue`. -/
inductive MetricValue where
  | float (v : Rat)
  | int (v : Int)
  | location (loc : LatLong)
  deriving DecidableEq, Repr

end Forest

namespace Forest

/-! ### src/dataconfig.rs : metric configuration and extraction -/

/-- `dataconfig.rs::DataType`. -/
inductive DataType where
  | floatT
  | intT
  | locationObject
  | locationTuple
  deriving DecidableEq, Repr

/-- `dataconfig.rs::MetricConfig`. -/
structure MetricConfig where
  json_pointer : Str
  name : Str
  data_type : DataType
  deriving DecidableEq, Repr

/-- `dataconfig.rs::DataConfig`. -/
structure DataConfig where
  metrics : List MetricConfig
  deriving DecidableEq, Repr

/-- The data-type dispatch inside `extract_metrics_from_json`, applied to
the value the JSON pointer resolved to. -/
def convertValue (dt : DataType) (v : Value) : Option MetricValue :=
  match dt with
  | .floatT => (v.asF64).map MetricValue.float
  | .intT =>
    -- `value.as_i64().or(value.as_f64().map(|f| f as i64))`
    ((v.asI64).or ((v.asF64).map ratTruncToInt)).map MetricValue.int
  | .locationObject =>
    match (v.idxStr ("lat".toList)).asF64, (v.idxStr ("long".toList)).asF64 with
    | some lat, some long => some (MetricValue.location ⟨lat, long⟩)
    | _, _ => none
  | .locationTuple =>
    match (v.idxNat 0).asF64, (v.idxNat 1).asF64 with
    | some lat, some long => some (MetricValue.location ⟨lat, long⟩)
    | _, _ => none

/-- `DataConfig::extract_metrics_from_json`: the source's `for` loop that
pushes one `(name, value)` pair per metric whose pointer resolves and
whose value converts, written as the equivalent `filterMap`. -/
def DataConfig.extract_metrics_from_json (c : DataConfig) (json_value : Value) :
    List (Str × MetricValue) :=
  c.metrics.filterMap fun metric =>
    (json_value.pointer metric.json_pointer).bind fun value =>
      (convertValue metric.data_type value).map fun mv => (metric.name, mv)

/-- The conversion table exactly as the claim words it; it differs from
`convertValue` only for `LocationTuple`, which it restricts to arrays of
exactly two numeric elements. -/
def convertValueClaim (dt : DataType) (v : Value) : Option MetricValue :=
  match dt with
  | .floatT => (v.asF64).map MetricValue.float
  | .intT => ((v.asI64).or ((v.asF64).map ratTruncToInt)).map MetricValue.int
  | .locationObject =>
    match (v.idxStr ("lat".toList)).asF64, (v.idxStr ("long".toList)).asF64 with
    | some lat, some long => some (MetricValue.location ⟨lat, long⟩)
    | _, _ => none
  | .locationTuple =>
    match v with
    | .arr [a, b] =>
      match a.asF64, b.asF64 with
      | some lat, some long => some (MetricValue.location ⟨lat, long⟩)
      | _, _ => none
    | _ => none

/-- Extraction as the claim describes it (using `convertValueClaim`). -/
def extractClaim (c : DataConfig) (json_value : Value) : List (Str × MetricValue) :=
  c.metrics.filterMap fun metric =>
    (json_value.pointer metric.json_pointer).bind fun value =>
      (convertValueClaim metric.data_type value).map fun mv => (metric.name, mv)

/-- The amended conversion table: `LocationTuple` accepts any array whose
first two elements are numbers (further elements are ignored). -/
def convertValueAmended (dt : DataType) (v : Value) : Option MetricValue :=
  match dt with
  | .floatT => (v.asF64).map MetricValue.float
  | .intT => ((v.asI64).or ((v.asF64).map ratTruncToInt)).map MetricValue.int
  | .locationObject =>
    match v with
    | .obj entries =>
      match ((objGet entries ("lat".toList)).getD .null).asF64,
            ((objGet entries ("long".toList)).getD .null).asF64 with
      | some lat, some long => some (MetricValue.location ⟨lat, long⟩)
      | _, _ => none
    | _ => none
  | .locationTuple =>
    match v with
    | .arr (a :: b :: _) =>
      match a.asF64, b.asF64 with
      | some lat, some long => some (MetricValue.location ⟨lat, long⟩)
      | _, _ => none
    | _ => none

/-- Extraction as the amended claim describes it. -/
def extractAmended (c : DataConfig) (json_value : Value) : List (Str × MetricValue) :=
  c.metrics.filterMap fun metric =>
    (json_value.pointer metric.json_pointer).bind fun value =>
      (convertValueAmended metric.data_type value).map fun mv => (metric.name, mv)

/-- `DataConfig::merge_with`'s inner step: replace the first metric with a
matching name, else push at the end. -/
def replaceOrPush (merged : List MetricConfig) (om : MetricConfig) : List MetricConfig :=
  match merged with
  | [] => [om]
  | m :: ms => if m.name = om.name then om :: ms else m :: replaceOrPush ms om

/-- `DataConfig::merge_with`: start from `self`'s metrics, fold the other
config's metrics through replace-or-push. -/
def DataConfig.merge_with (c other : DataConfig) : DataConfig :=
  { metrics := other.metrics.foldl replaceOrPush c.metrics }

/-- The merge rule as the spec words it (§4.1 step 3): replace any metric
of the tenant config whose name equals one in the device config, then
append the device config's remaining metrics in order. -/
def mergeSpec (t d : DataConfig) : DataConfig :=
  { metrics :=
      (t.metrics.map fun m =>
        match d.metrics.find? (fun om => om.name = m.name) with
        | some om => om
        | none => m) ++
      d.metrics.filter fun om => t.metrics.all fun m => ¬ m.name = om.name }

end Forest

namespace Forest

/-! ### src/db/mod.rs : `get_data_config`

The `data_configs` table is modelled as a list of rows in table order; a
row's `device_pre` is `""` for the tenant-wide config.  The connection
pool and the SQL round-trips are transparent here: `fetch_optional`
becomes `find?` and `fetch_all` becomes `filter`. -/

/-- One row of the `data_configs` table. -/
structure DataConfigRow where
  tenant_id : TenantId
  device_pre : Str
  config : DataConfig
  deriving DecidableEq, Repr

/-- The tenant-wide config: the row of this tenant with prefix `""`. -/
def tenantConfig (rows : List DataConfigRow) (t : TenantId) : Option DataConfig :=
  (rows.find? fun r => r.tenant_id = t ∧ r.device_pre = []).map (fun r => r.config)

/-- Keep the incoming row when it is the first candidate or its prefix is
strictly longer than the best so far (shared by the code's fold and the
spec-side selection). -/
def argStep (best : Option DataConfigRow) (r : DataConfigRow) : Option DataConfigRow :=
  match best with
  | none => some r
  | some b => if b.device_pre.length < r.device_pre.length then some r else best

/-- The best-match fold of `get_data_config`: scan rows of this tenant
with non-empty prefix, keep the first row whose prefix length strictly
exceeds the best so far among those whose prefix starts `d_id`. -/
def bestStep (d_id : Str) (best : Option DataConfigRow) (r : DataConfigRow) :
    Option DataConfigRow :=
  if r.device_pre.isPrefixOf d_id then argStep best r else best

/-- `DB::get_data_config`. -/
def get_data_config (rows : List DataConfigRow) (tenant_id : TenantId)
    (device_id : Option Str) : Option DataConfig :=
  let maybe_tenant_cfg := tenantConfig rows tenant_id
  match device_id with
  | some d_id =>
    let device_rows := rows.filter fun r => r.tenant_id = tenant_id ∧ ¬ r.device_pre = []
    let best_match := device_rows.foldl (bestStep d_id) none
    match best_match with
    | some r =>
      match maybe_tenant_cfg with
      | some tenant_cfg => some (tenant_cfg.merge_with r.config)
      | none => some r.config
    | none => maybe_tenant_cfg
  | none => maybe_tenant_cfg

/-- The device rows of tenant `t` whose non-empty prefix starts `d`. -/
def matchingRows (rows : List DataConfigRow) (t : TenantId) (d : Str) :
    List DataConfigRow :=
  rows.filter fun r => r.tenant_id = t ∧ ¬ r.device_pre = [] ∧ r.device_pre.isPrefixOf d

/-- Spec-side selection: among the matching rows, the first one of maximal
prefix length (§4.1 step 2; with distinct stored prefixes there is exactly
one maximal length). -/
def longestMatch (rows : List DataConfigRow) (t : TenantId) (d : Str) :
    Option DataConfigRow :=
  (matchingRows rows t d).foldl argStep none

/-- §4.1 steps 3–4, as the claim words them: merge when both configs
exist, return the single one unchanged, `none` when neither exists. -/
def effectiveConfigSpec (t d : Option DataConfig) : Option DataConfig :=
  match t, d with
  | some tc, some dc => some (mergeSpec tc dc)
  | some tc, none => some tc
  | none, some dc => some dc
  | none, none => none

end Forest

namespace Forest

/-! ### src/db/mod.rs : `verify_device_password`

The bcrypt comparison is abstracted as a function argument
`bcrypt_verify plaintext hash`, returning `none` for `Err(_)` (a
malformed stored hash) and `some b` for `Ok(b)`.  The `device_credentials`
table is a list of rows; the pool is an `Option` as in the source
(`None` yields `DatabaseConnectionError`). -/

/-- One row of the `device_credentials` table. -/
structure DeviceCredentialRow where
  tenant_id : TenantId
  device_id : Str
  username : Str
  password_hash : Str
  deriving DecidableEq, Repr

inductive DatabaseError where
  | databaseConnectionError
  deriving DecidableEq, Repr

/-- The `SELECT password_hash ... fetch_optional` of
`verify_device_password`. -/
def lookupHash (creds : List DeviceCredentialRow) (t : TenantId) (d u : Str) :
    Option Str :=
  ((creds.find? fun c => c.tenant_id = t ∧ c.device_id = d ∧ c.username = u)).map
    (fun c => c.password_hash)

/-- `DB::verify_device_password`. -/
def verify_device_password (pool : Option (List DeviceCredentialRow))
    (bcrypt_verify : Str → Str → Option Bool)
    (tenant_id : TenantId) (device_id username password : Str) :
    Except DatabaseError Bool :=
  match pool with
  | some creds =>
    match lookupHash creds tenant_id device_id username with
    | some hash_str =>
      .ok (match bcrypt_verify password hash_str with
        | some v => v
        | none => false)
    | none => .ok false
  | none => .error .databaseConnectionError

end Forest

namespace Forest

/-! ### src/mqtt/auth.rs : the broker accept-hook

`GLOBAL_DB` and the SQL round-trips are transparent: the tenant table is a
list of rows, and the password check is the abstract result of
`verify_device_password` (a function of tenant, client id, username and
password).  The accepted `ClientInfo` is reduced to the fields the claim
is about: client id and tenant binding. -/

/-- `get_tenant`, as used by `auth`: first row with this tenant id. -/
def get_tenant (tenants : List Tenant) (id : TenantId) : Option Tenant :=
  tenants.find? fun t => t.tenant_id = id

/-- The accept record of `auth` (`ClientInfo`, restricted to the fields
the decision produces). -/
structure ClientInfo where
  client_id : Str
  tenant : TenantId
  deriving DecidableEq, Repr

/-- `auth.rs::auth`.  `verify t c u p` stands for
`db.verify_device_password(&t, &c, &u, &p)` succeeding with that boolean;
`now` feeds `Tenant::new`'s clock read. -/
def auth (tenants : List Tenant) (verify : TenantId → Str → Str → Str → Bool)
    (now : Nat) (client_id username password common_name organization : Str) :
    Option ClientInfo :=
  let tenant_str := if ¬ organization = [] then organization else "default".toList
  let tenant_id := DefaultString.fromStr tenant_str
  let tenant := (get_tenant tenants tenant_id).getD (Tenant.new tenant_id now)
  let auth_config := tenant.auth_config
  if ¬ common_name = [] then
    if auth_config.allow_certificates = false then none
    else if ¬ client_id = common_name then none
    else some { client_id := client_id, tenant := tenant_id }
  else if ¬ username = [] then
    if auth_config.allow_passwords = false then none
    else if verify tenant_id client_id username password then
      some { client_id := client_id, tenant := tenant_id }
    else none
  else none

/-- §4.5's decision procedure, transcribed from the spec's words (the
claim): resolve the tenant from `certificate_Org` or `"default"`,
synthesize `allow_passwords = false, allow_certificates = true` when no
tenant row exists, then the certificate / password / reject cascade. -/
def authSpec (tenants : List Tenant) (verify : TenantId → Str → Str → Str → Bool)
    (client_id username password common_name organization : Str) :
    Option ClientInfo :=
  let tenant_id :=
    DefaultString.fromStr (if organization = [] then "default".toList else organization)
  let cfg :=
    match get_tenant tenants tenant_id with
    | some t => t.auth_config
    | none => { allow_passwords := false, allow_certificates := true }
  if ¬ common_name = [] then
    if ¬ cfg.allow_certificates then none
    else if ¬ common_name = client_id then none
    else some { client_id := client_id, tenant := tenant_id }
  else if ¬ username = [] then
    if ¬ cfg.allow_passwords then none
    else if verify tenant_id client_id username password then
      some { client_id := client_id, tenant := tenant_id }
    else none
  else none

end Forest

namespace Forest

/-! ### src/mqtt/messages.rs + server.rs : `MqttSender::publish`

`start_broker` creates the command channel with
`flume::bounded::<MqttCommand>(400)` and `publish` calls
`Sender::send` on it.  We model the channel by its observable state and
`send` by flume's documented semantics for a bounded channel: `send`
returns `Err(SendError(..))` exactly when all receivers have been dropped,
and when the channel is full (and still connected) it *blocks* the calling
thread until space becomes available. -/

/-- Observable state of a flume bounded channel. -/
structure ChannelState where
  queued : Nat
  capacity : Nat
  disconnected : Bool
  deriving DecidableEq, Repr

/-- What a call to bounded `flume::Sender::send` does to its caller in a
given channel state. -/
inductive SendResult where
  | ok
  | blocksCaller
  | errSendError
  deriving DecidableEq, Repr

/-- flume's bounded `Sender::send` (external-library semantics, per its
documentation and mirrored by the source's `MqttError::SendError(#[from]
flume::SendError<MqttCommand>)`, the disconnect-only error type). -/
def flumeSend (st : ChannelState) : SendResult :=
  if st.disconnected then .errSendError
  else if st.queued < st.capacity then .ok
  else .blocksCaller

/-- `MqttSender::publish`: wraps the message in `MqttCommand::Publish` and
`send`s it on the command channel. -/
def MqttSender.publish (st : ChannelState) : SendResult := flumeSend st

/-- `server.rs::start_broker`: `flume::bounded::<MqttCommand>(400)`. -/
def commandChannelCapacity : Nat := 400

end Forest

namespace Forest

/-! ### src/timeseries.rs : `TimeSeries<T>`

The two parallel `Vec`s become two parallel lists.  `Vec::binary_search`
on the (sorted, duplicate-free) timestamps vector is modelled by the
equivalent ordered scan: on a sorted vector, `binary_search(&x)` returns
`Ok(i)` with `v[i] = x` iff `x` is present, and otherwise `Err(i)` where
`i` is the number of elements `< x` — which is what the list versions
below compute. -/

structure TimeSeries (T : Type) where
  timestamps : List Nat
  values : List T

/-- `TimeSeries::new`. -/
def TimeSeries.new {T : Type} : TimeSeries T := ⟨[], []⟩

/-- The lockstep insert of `add_point`: walk both vectors to the binary
search position; replace the value on an exact timestamp hit, insert into
both otherwise. -/
def insertPoint {T : Type} (ts : Nat) (v : T) :
    List Nat → List T → List Nat × List T
  | t :: tsl, w :: vsl =>
    if ts < t then (ts :: t :: tsl, v :: w :: vsl)
    else if ts = t then (t :: tsl, v :: vsl)
    else
      let r := insertPoint ts v tsl vsl
      (t :: r.1, w :: r.2)
  | _, _ => ([ts], [v])

/-- `TimeSeries::add_point`. -/
def TimeSeries.add_point {T : Type} (s : TimeSeries T) (timestamp : Nat) (value : T) :
    TimeSeries T :=
  let r := insertPoint timestamp value s.timestamps s.values
  ⟨r.1, r.2⟩

/-- `TimeSeries::get_value_for_timestamp`. -/
def TimeSeries.get_value_for_timestamp {T : Type} (s : TimeSeries T) (timestamp : Nat) :
    Option T :=
  ((s.timestamps.zip s.values).find? fun p => p.1 = timestamp).map (fun p => p.2)

/-- `TimeSeries::clear`. -/
def TimeSeries.clear {T : Type} (_s : TimeSeries T) : TimeSeries T := ⟨[], []⟩

/-- `TimeSeries::trim`: keep the points with `minimum_ts ≤ ts ≤
maximum_ts` — `truncate(end_idx)` then `drain(0..start_idx)`, with the two
binary-search indices as counts (see the section comment). -/
def TimeSeries.trim {T : Type} (s : TimeSeries T) (minimum_ts maximum_ts : Nat) :
    TimeSeries T :=
  let end_idx := s.timestamps.countP fun t => t ≤ maximum_ts
  let start_idx := s.timestamps.countP fun t => t < minimum_ts
  ⟨(s.timestamps.take end_idx).drop start_idx, (s.values.take end_idx).drop start_idx⟩

/-- `TimeSeries::keep_last`. -/
def TimeSeries.keep_last {T : Type} (s : TimeSeries T) (n : Nat) : TimeSeries T :=
  if n < s.timestamps.length then
    ⟨s.timestamps.drop (s.timestamps.length - n), s.values.drop (s.timestamps.length - n)⟩
  else s

/-- `TimeSeries::merge`: `add_point` every pair of the other series. -/
def TimeSeries.merge {T : Type} (s other : TimeSeries T) : TimeSeries T :=
  (other.timestamps.zip other.values).foldl (fun acc p => acc.add_point p.1 p.2) s

/-- `TimeSeries::len`. -/
def TimeSeries.len {T : Type} (s : TimeSeries T) : Nat := s.timestamps.length

/-- The representation invariant of `TimeSeries`: strictly increasing
timestamps, and as many values as timestamps. -/
def TimeSeries.WF {T : Type} (s : TimeSeries T) : Prop :=
  s.timestamps.Pairwise (· < ·) ∧ s.timestamps.length = s.values.length

end Forest

namespace Forest

/-! ### The shadow engine (spec §4.2)

Modelled from the spec: the shadow engine module itself
(`src/shadow/mod.rs` — `StateDocument::update`, the recursive merge, the
delta computation and `Shadow::update`) is not present under `src/`; only
`src/shadow/tests.rs` is.  The definitions below transcribe §4.2 of the
spec (merge and delta pseudocode, preconditions, and outputs).  One
under-determined corner of the pseudocode: delta's guard "if sub is not
empty-object" is read together with delta's "return out if non-empty else
null" convention, i.e. a recursive delta that comes back `null` (empty)
is omitted from the parent object. -/

mutual

/-- §4.2 `merge(target, patch, meta, now)` — returns the new target and
the new metadata document. -/
def mergeState (target patch meta : Value) (now : Nat) : Value × Value :=
  match patch with
  | .null => (target, meta)
  | .obj entries =>
    let t0 : List (Str × Value) := match target with | .obj es => es | _ => []
    let m0 : List (Str × Value) := match meta with | .obj es => es | _ => []
    let r := mergeEntries entries t0 m0 now
    (.obj r.1, .obj r.2)
  | _ => (patch, .num (.int now))

/-- The `for (k, v) in patch` loop of §4.2's merge. -/
def mergeEntries (entries tgt meta : List (Str × Value)) (now : Nat) :
    List (Str × Value) × List (Str × Value) :=
  match entries with
  | [] => (tgt, meta)
  | (k, v) :: rest =>
    match v with
    | .null => mergeEntries rest (objRemove tgt k) (objRemove meta k) now
    | .obj ves =>
      let sub := mergeState ((objGet tgt k).getD .null) (.obj ves)
        ((objGet meta k).getD .null) now
      mergeEntries rest (objInsert tgt k sub.1) (objInsert meta k sub.2) now
    | other => mergeEntries rest (objInsert tgt k other) (objInsert meta k (.num (.int now))) now
end

mutual

/-- §4.2 `delta(reported, desired)`. -/
def deltaFn (reported desired : Value) : Value :=
  match desired with
  | .null => .null
  | .obj entries =>
    let out := deltaEntries reported entries
    if out = [] then .null else .obj out
  | other => if other = reported then .null else other

/-- The `for (k, dv) in desired` loop of §4.2's delta. -/
def deltaEntries (reported : Value) (entries : List (Str × Value)) :
    List (Str × Value) :=
  match entries with
  | [] => []
  | (k, dv) :: rest =>
    let rv : Option Value := match reported with | .obj res => objGet res k | _ => none
    if rv = some dv then deltaEntries reported rest
    else
      match dv, rv with
      | .obj _, some (.obj res) =>
        let sub := deltaFn (.obj res) dv
        if sub = .null then deltaEntries reported rest
        else (k, sub) :: deltaEntries reported rest
      | _, _ => (k, dv) :: deltaEntries reported rest
end

/-- §3 `Shadow.state` / `StateUpdateDocument.state`. -/
structure StateDocument where
  reported : Value
  desired : Value
  delta : Value
  deriving DecidableEq

/-- §3 `Shadow.metadata`. -/
structure MetadataDocument where
  reported : Value
  desired : Value
  deriving DecidableEq

/-- §3 `Shadow`. -/
structure Shadow where
  device_id : Str
  shadow_name : ShadowName
  tenant_id : TenantId
  state : StateDocument
  metadata : MetadataDocument
  version : Nat
  last_updated : Nat
  deriving DecidableEq

/-- §3 `StateUpdateDocument`. -/
structure StateUpdateDocument where
  device_id : Str
  shadow_name : ShadowName
  tenant_id : TenantId
  state : StateDocument
  deriving DecidableEq

/-- §4.2 preconditions. -/
inductive ShadowError where
  | deviceIdMismatch
  | shadowNameMismatch
  | tenantIdMismatch
  deriving DecidableEq, Repr

/-- §4.2 `update(current_shadow, update)`: check the identity
preconditions, merge `reported` and `desired` (with their metadata),
recompute `delta`, bump `version`, stamp `last_updated`. -/
def Shadow.update (s : Shadow) (u : StateUpdateDocument) (now : Nat) :
    Except ShadowError Shadow :=
  if ¬ u.device_id = s.device_id then .error .deviceIdMismatch
  else if ¬ u.shadow_name = s.shadow_name then .error .shadowNameMismatch
  else if ¬ u.tenant_id = s.tenant_id then .error .tenantIdMismatch
  else
    let mr := mergeState s.state.reported u.state.reported s.metadata.reported now
    let md := mergeState s.state.desired u.state.desired s.metadata.desired now
    let dl := deltaFn mr.1 md.1
    .ok { s with
      state := { reported := mr.1, desired := md.1, delta := dl }
      metadata := { reported := mr.2, desired := md.2 }
      version := s.version + 1
      last_updated := now }

/-- Top-level well-formedness of a JSON document as serde produces it:
object keys are distinct (only the top level is needed by the delta-null
argument). -/
def topKeysNodup : Value → Prop
  | .obj entries => (entries.map fun kv => kv.1).Nodup
  | _ => True

instance (v : Value) : Decidable (topKeysNodup v) :=
  match v with
  | .obj entries =>
    decidable_of_iff ((entries.map fun kv : Str × Value => kv.1).Nodup) Iff.rfl
  | .null => isTrue trivial
  | .bool _ => isTrue trivial
  | .num _ => isTrue trivial
  | .str _ => isTrue trivial
  | .arr _ => isTrue trivial

end Forest

namespace Forest

/-- A concrete shadow (the `thermostat-123` example of
src/shadow/tests.rs::test_shadow_update) with empty initial state. -/
def exampleShadow : Shadow :=
  { device_id := "thermostat-123".toList
    shadow_name := .custom ("main".toList)
    tenant_id := .custom ("tenant".toList)
    state := ⟨.null, .null, .null⟩
    metadata := ⟨.null, .null⟩
    version := 0
    last_updated := 0 }

/-- The matching update: reported temperature / humidity / mode, desired
temperature / mode (`22.5` and `21` as exact rationals). -/
def exampleUpdate : StateUpdateDocument :=
  { device_id := "thermostat-123".toList
    shadow_name := .custom ("main".toList)
    tenant_id := .custom ("tenant".toList)
    state :=
      ⟨.obj [("temperature".toList, .num (.float (mkRat 45 2))),
             ("humidity".toList, .num (.int 45)),
             ("mode".toList, .str ("auto".toList))],
       .obj [("temperature".toList, .num (.float (mkRat 21 1))),
             ("mode".toList, .str ("cool".toList))],
       .null⟩ }

end Forest

namespace Forest

instance {e a : Type} [DecidableEq e] [DecidableEq a] : DecidableEq (Except e a) :=
  fun x y =>
  match x, y with
  | .ok v, .ok w =>
    if h : v = w then isTrue (by rw [h]) else isFalse (by intro hh; cases hh; exact h rfl)
  | .error v, .error w =>
    if h : v = w then isTrue (by rw [h]) else isFalse (by intro hh; cases hh; exact h rfl)
  | .ok _, .error _ => isFalse (fun h => Except.noConfusion h)
  | .error _, .ok _ => isFalse (fun h => Except.noConfusion h)

end Forest

namespace Forest

/-! ## C7 : `verify_device_password` never errors on a bad hash and
accepts exactly a bcrypt-verified stored hash -/

/-- C7.  With a live pool, `verify_device_password` always returns `Ok`:
`Ok(false)` when no credential row exists, when bcrypt rejects the
password, or when the stored hash is malformed (`bcrypt::verify`
returning `Err` — modelled as `none` — is mapped to `false`, never to an
`Err` of the function); and it returns `Ok(true)` exactly when a stored
hash exists against which the plaintext bcrypt-verifies. -/
theorem c7_verify_device_password_total_and_sound
    (pool : Option (List DeviceCredentialRow)) (creds : List DeviceCredentialRow)
    (bcrypt_verify : Str → Str → Option Bool) (t : TenantId) (d u pw : Str)
    (hpool : pool = some creds) :
    (∃ b, verify_device_password pool bcrypt_verify t d u pw = .ok b)
    ∧ (verify_device_password pool bcrypt_verify t d u pw = .ok true ↔
        ∃ hsh, lookupHash creds t d u = some hsh ∧ bcrypt_verify pw hsh = some true) := by
  subst hpool
  cases hl : lookupHash creds t d u with
  | none =>
    constructor
    · exact ⟨false, by simp [verify_device_password, hl]⟩
    · simp [verify_device_password, hl]
  | some hsh =>
    cases hb : bcrypt_verify pw hsh with
    | none =>
      constructor
      · exact ⟨false, by simp [verify_device_password, hl, hb]⟩
      · simp [verify_device_password, hl, hb]
    | some v =>
      constructor
      · exact ⟨v, by simp [verify_device_password, hl, hb]⟩
      · simp [verify_device_password, hl, hb]

/-- Witness for C7 at a concrete table and bcrypt oracle. -/
theorem c7_witness :
    (some [(⟨.default, "dev1".toList, "user".toList, "h1".toList⟩ : DeviceCredentialRow)]
      = some [(⟨.default, "dev1".toList, "user".toList, "h1".toList⟩ : DeviceCredentialRow)])
    ∧ ((∃ b, verify_device_password
          (some [⟨.default, "dev1".toList, "user".toList, "h1".toList⟩])
          (fun pw hsh => if pw = "secret".toList ∧ hsh = "h1".toList then some true else none)
          .default ("dev1".toList) ("user".toList) ("secret".toList) = .ok b)
      ∧ (verify_device_password
          (some [⟨.default, "dev1".toList, "user".toList, "h1".toList⟩])
          (fun pw hsh => if pw = "secret".toList ∧ hsh = "h1".toList then some true else none)
          .default ("dev1".toList) ("user".toList) ("secret".toList) = .ok true ↔
          ∃ hsh, lookupHash [⟨.default, "dev1".toList, "user".toList, "h1".toList⟩]
              .default ("dev1".toList) ("user".toList) = some hsh ∧
            (if "secret".toList = "secret".toList ∧ hsh = "h1".toList then some true
              else none) = some true)) :=
  ⟨rfl, c7_verify_device_password_total_and_sound _ _ _ _ _ _ _ rfl⟩

end Forest

namespace Forest

/-! ## C8 : `MqttSender::publish` on a full channel -/

/-- C8 counterexample.  On the full, still-connected capacity-400 command
channel, `publish` blocks the caller (flume's bounded `send`), rather
than returning a send error as the claim states. -/
theorem c8_counterexample :
    MqttSender.publish ⟨commandChannelCapacity, commandChannelCapacity, false⟩
      = SendResult.blocksCaller
    ∧ SendResult.blocksCaller ≠ SendResult.errSendError := by
  constructor
  · rfl
  · intro h
    cases h

/-- C8 amended.  `publish` enqueues on the bounded command channel of
capacity 400; a send error is returned exactly when the channel is
disconnected (all receivers dropped); when the channel is full and still
connected the call blocks the caller until space is available, and
otherwise it enqueues without blocking. -/
theorem c8_publish_channel_semantics :
    commandChannelCapacity = 400
    ∧ (∀ st : ChannelState,
        MqttSender.publish st = SendResult.errSendError ↔ st.disconnected = true)
    ∧ (∀ st : ChannelState, st.disconnected = false → st.capacity ≤ st.queued →
        MqttSender.publish st = SendResult.blocksCaller)
    ∧ (∀ st : ChannelState, st.disconnected = false → st.queued < st.capacity →
        MqttSender.publish st = SendResult.ok) := by
  refine ⟨rfl, ?_, ?_, ?_⟩
  · rintro ⟨q, c, d⟩
    cases d
    · by_cases hqc : q < c <;> simp [MqttSender.publish, flumeSend, hqc]
    · simp [MqttSender.publish, flumeSend]
  · rintro ⟨q, c, d⟩ hd hq
    cases hd
    dsimp only at hq
    have hqc : ¬ q < c := by omega
    simp [MqttSender.publish, flumeSend, hqc]
  · rintro ⟨q, c, d⟩ hd hq
    cases hd
    dsimp only at hq
    simp [MqttSender.publish, flumeSend, hq]

/-- Witness for C8's amended theorem at a concrete channel state. -/
theorem c8_witness :
    ((⟨400, 400, false⟩ : ChannelState).disconnected = false)
    ∧ ((⟨400, 400, false⟩ : ChannelState).capacity ≤ (⟨400, 400, false⟩ : ChannelState).queued)
    ∧ MqttSender.publish ⟨400, 400, false⟩ = SendResult.blocksCaller :=
  ⟨rfl, le_refl _, c8_publish_channel_semantics.2.2.1 ⟨400, 400, false⟩ rfl (le_refl _)⟩

end Forest

namespace Forest

/-! ## C5 : time requests are never classified -/

/-- C5.  With the processor's default configuration
(`shadow_topic_prefix = "things/"`, `telemetry_topics = ["things/+/data"]`,
`ProcessorConfig::default` in processor/mod.rs), a message published on
`things/dev1/time/request` is classified `Other` by
`topics.rs::get_topic_type` — the `TopicType` enum of topics.rs has no
`TimeRequest` variant at all, although the dispatcher in processor/mod.rs
matches on `TopicType::TimeRequest` and processor/tests.rs
(`test_time_request`) expects a time response to be produced. -/
theorem c5_time_request_classified_other :
    getTopicType ["things/+/data".toList] ("things/".toList)
      ("things/dev1/time/request".toList) = TopicType.other := by decide

end Forest

namespace Forest

/-! ## C3 : the CONNECT decision follows §4.5 exactly -/

/-- C3.  For every tenant table, password oracle and CONNECT input, the
accept-hook `auth` returns exactly what §4.5's decision procedure
(`authSpec`, transcribed from the spec) prescribes: tenant from
`certificate_Org` when non-empty else `"default"`; a synthesized default
tenant (`allow_passwords = false`, `allow_certificates = true`) when no
row exists; certificate CN checked against the client id under
`allow_certificates`; else password via `verify_device_password` under
`allow_passwords`; else reject. -/
theorem c3_auth_follows_spec
    (tenants : List Tenant) (verify : TenantId → Str → Str → Str → Bool) (now : Nat)
    (client_id username password common_name organization : Str) :
    auth tenants verify now client_id username password common_name organization
      = authSpec tenants verify client_id username password common_name organization := by
  by_cases horg : organization = [] <;>
    · simp only [auth, authSpec, horg, if_true, if_false, not_true_eq_false, not_false_eq_true,
        ite_true, ite_false]
      cases hfind :
          get_tenant tenants (DefaultString.fromStr
            (if organization = [] then "default".toList else organization)) with
      | none =>
        simp only [horg, if_true, if_false, ite_true, ite_false] at hfind ⊢
        rw [hfind]
        rcases hb : AuthConfig.defaultConfig with ⟨ap, ac⟩
        simp only [Option.getD, Tenant.new, hb]
        cases ap <;> cases ac <;>
          simp_all [AuthConfig.defaultConfig, @eq_comm _ client_id common_name]
      | some t =>
        simp only [horg, if_true, if_false, ite_true, ite_false] at hfind ⊢
        rw [hfind]
        rcases t with ⟨tid0, ⟨ap, ac⟩, ca⟩
        simp only [Option.getD]
        cases ap <;> cases ac <;>
          simp [@eq_comm _ client_id common_name]

end Forest

namespace Forest

/-! ## C4 : the topic classifier implements the §4.4 grammar, and device
ids split at the first dot -/

theorem splitOnce_of_not_mem {c : Char} {s : Str} (h : c ∉ s) :
    splitOnce c s = none := by
  induction s with
  | nil => rfl
  | cons a s ih =>
    have hac : ¬ a = c := fun hac => h (hac ▸ List.mem_cons_self a s)
    have hcs : c ∉ s := fun hcs => h (List.mem_cons_of_mem a hcs)
    simp [splitOnce, hac, ih hcs]

theorem splitOnce_append {c : Char} {t : Str} (d : Str) (h : c ∉ t) :
    splitOnce c (t ++ c :: d) = some (t, d) := by
  induction t with
  | nil => simp [splitOnce]
  | cons a t ih =>
    have hac : ¬ a = c := fun hac => h (hac ▸ List.mem_cons_self a t)
    have hct : c ∉ t := fun hct => h (List.mem_cons_of_mem a hct)
    simp [splitOnce, hac, ih hct]

/-- C4.  (i) Whenever no telemetry pattern fires, `get_topic_type`
classifies exactly by the §4.4 grammar (`grammarSpec`, transcribed from
the spec's table after stripping `shadow_topic_prefix`): `<dev>/shadow/update`
↦ ShadowUpdate(Default), `<dev>/shadow/<name>/update` ↦ ShadowUpdate(name),
`<dev>/data` ↦ DataUpdate, the two delta forms ↦ ShadowDelta, anything
else ↦ Other.  (ii)+(iii) `split_device_id` round-trips: a device id
`<tenant>.<dev>` parses to that tenant (via TenantId::from_str) and
device, and without a dot the tenant is Default. -/
theorem c4_topic_grammar_and_device_split
    (tel : List Str) (pre topic : Str)
    (hno : findTelemetry tel topic = none) :
    (getTopicType tel pre topic = grammarSpec pre topic)
    ∧ (∀ t d : Str, '.' ∉ t →
        splitDeviceId (t ++ '.' :: d) = (DefaultString.fromStr t, d))
    ∧ (∀ s : Str, '.' ∉ s → splitDeviceId s = (.default, s)) := by
  refine ⟨?_, ?_, ?_⟩
  · unfold getTopicType grammarSpec
    rw [hno]
    cases hst : stripStart pre topic with
    | none => rfl
    | some rest =>
      dsimp only
      generalize splitOn '/' rest = l
      rcases l with _ | ⟨d, l⟩
      · rfl
      rcases l with _ | ⟨x, l⟩
      · rfl
      rcases l with _ | ⟨y, l⟩
      · rfl
      rcases l with _ | ⟨z, l⟩
      · rfl
      rcases l with _ | ⟨w, l⟩
      · -- four segments: the two spec rows are mutually exclusive
        dsimp only
        by_cases hA : x = "shadow".toList ∧ z = "update".toList
        · have hB : ¬ (x = "shadow".toList ∧ y = "update".toList ∧ z = "delta".toList) := by
            rintro ⟨-, -, hzd⟩
            exact absurd (hA.2.symm.trans hzd) (by decide)
          rw [if_pos hA, if_neg hB, if_pos hA]
        · by_cases hB : x = "shadow".toList ∧ y = "update".toList ∧ z = "delta".toList
          · rw [if_neg hA, if_pos hB, if_pos hB]
          · rw [if_neg hA, if_neg hB, if_neg hB, if_neg hA]
      rcases l with _ | ⟨v, l⟩
      · rfl
      · rfl
  · intro t d ht
    unfold splitDeviceId
    rw [splitOnce_append d ht]
  · intro s hs
    unfold splitDeviceId
    rw [splitOnce_of_not_mem hs]

/-- Witness for C4 at the default prefix and concrete topics/devices. -/
theorem c4_witness :
    (findTelemetry [] ("things/t1.dev7/shadow/update".toList) = none)
    ∧ getTopicType [] ("things/".toList) ("things/t1.dev7/shadow/update".toList)
        = grammarSpec ("things/".toList) ("things/t1.dev7/shadow/update".toList)
    ∧ ('.' ∉ "t1".toList)
    ∧ splitDeviceId ("t1".toList ++ '.' :: "dev7".toList)
        = (DefaultString.fromStr ("t1".toList), "dev7".toList)
    ∧ ('.' ∉ "dev9".toList)
    ∧ splitDeviceId ("dev9".toList) = (.default, "dev9".toList) := by
  refine ⟨rfl, ?_, by decide, ?_, by decide, ?_⟩
  · exact (c4_topic_grammar_and_device_split [] ("things/".toList)
      ("things/t1.dev7/shadow/update".toList) rfl).1
  · exact (c4_topic_grammar_and_device_split [] ("things/".toList)
      ("things/t1.dev7/shadow/update".toList) rfl).2.1 ("t1".toList) ("dev7".toList)
      (by decide)
  · exact (c4_topic_grammar_and_device_split [] ("things/".toList)
      ("things/t1.dev7/shadow/update".toList) rfl).2.2 ("dev9".toList) (by decide)

end Forest

namespace Forest

/-! ## C9 : telemetry patterns take precedence — but only patterns
containing a `+` ever classify -/

/-- C9 counterexample.  The configured telemetry pattern
`things/dev1/shadow/update` (no `+` wildcard) matches the topic
`things/dev1/shadow/update` in the MQTT sense, yet `get_topic_type` does
not classify the message as DataUpdate: the pattern yields no extracted
device, the loop falls through, and the shadow grammar classifies it as a
ShadowUpdate. -/
theorem c9_counterexample :
    segsMatchSpec (splitOn '/' ("things/dev1/shadow/update".toList))
        (splitOn '/' ("things/dev1/shadow/update".toList)) = true
    ∧ TopicType.isDataUpdate (getTopicType ["things/dev1/shadow/update".toList]
        ("things/".toList) ("things/dev1/shadow/update".toList)) = false
    ∧ getTopicType ["things/dev1/shadow/update".toList] ("things/".toList)
        ("things/dev1/shadow/update".toList)
      = TopicType.shadowUpdate .default ("dev1".toList) .default := by decide

theorem matchSegs_capture {P T : List Str} {dv : Str}
    (h : matchSegs P T = some (some dv)) : firstPlusCapture P T = some dv := by
  induction P generalizing T with
  | nil =>
    cases T with
    | nil => cases h
    | cons t ts => cases h
  | cons p ps ih =>
    cases T with
    | nil => cases h
    | cons t ts =>
      by_cases hp : p = "+".toList
      · simp only [matchSegs, hp, if_true, ite_true] at h
        cases hms : matchSegs ps ts with
        | none => rw [hms] at h; cases h
        | some o =>
          rw [hms] at h
          cases h
          simp [firstPlusCapture, hp]
      · simp only [matchSegs, hp, if_false, ite_false] at h
        by_cases hpt : p = t
        · rw [if_pos hpt] at h
          simp only [firstPlusCapture, hp, if_false, ite_false]
          exact ih h
        · rw [if_neg hpt] at h
          cases h

theorem segsMatch_some {P T : List Str}
    (h : segsMatchSpec P T = true) : ∃ o, matchSegs P T = some o := by
  induction P generalizing T with
  | nil =>
    cases T with
    | nil => exact ⟨none, rfl⟩
    | cons t ts => cases h
  | cons p ps ih =>
    cases T with
    | nil => cases h
    | cons t ts =>
      simp only [segsMatchSpec, Bool.and_eq_true, decide_eq_true_eq] at h
      obtain ⟨hor, hrest⟩ := h
      obtain ⟨o, ho⟩ := ih hrest
      by_cases hp : p = "+".toList
      · exact ⟨some t, by simp [matchSegs, hp, ho]⟩
      · have hpt : p = t := hor.resolve_left hp
        refine ⟨o, ?_⟩
        simp only [matchSegs]
        rw [if_neg hp, if_pos hpt]
        exact ho

theorem segsMatch_plus_capture {P T : List Str}
    (h : segsMatchSpec P T = true) (hplus : "+".toList ∈ P) :
    ∃ dv, matchSegs P T = some (some dv) := by
  induction P generalizing T with
  | nil => cases hplus
  | cons p ps ih =>
    cases T with
    | nil => cases h
    | cons t ts =>
      simp only [segsMatchSpec, Bool.and_eq_true, decide_eq_true_eq] at h
      obtain ⟨hor, hrest⟩ := h
      by_cases hp : p = "+".toList
      · obtain ⟨o, ho⟩ := segsMatch_some hrest
        exact ⟨t, by simp [matchSegs, hp, ho]⟩
      · have hpt : p = t := hor.resolve_left hp
        have hplus2 : "+".toList ∈ ps := by
          cases hplus with
          | head => exact absurd rfl hp
          | tail _ hmem => exact hmem
        obtain ⟨dv, hdv⟩ := ih hrest hplus2
        refine ⟨dv, ?_⟩
        simp only [matchSegs]
        rw [if_neg hp, if_pos hpt]
        exact hdv

theorem findTelemetry_of_match {tel : List Str} {p topic : Str} {dv : Str}
    (hp : p ∈ tel)
    (hm : matchSegs (splitOn '/' p) (splitOn '/' topic) = some (some dv)) :
    ∃ dev, findTelemetry tel topic = some dev := by
  induction tel with
  | nil => cases hp
  | cons q tel ih =>
    cases hms : matchSegs (splitOn '/' q) (splitOn '/' topic) with
    | none =>
      cases hp with
      | head => rw [hms] at hm; cases hm
      | tail _ hmem =>
        obtain ⟨dev, hdev⟩ := ih hmem
        exact ⟨dev, by simp [findTelemetry, hms, hdev]⟩
    | some o =>
      cases o with
      | none =>
        cases hp with
        | head => rw [hms] at hm; cases hm
        | tail _ hmem =>
          obtain ⟨dev, hdev⟩ := ih hmem
          exact ⟨dev, by simp [findTelemetry, hms, hdev]⟩
      | some dev => exact ⟨dev, by simp [findTelemetry, hms]⟩

/-- C9 amended.  The telemetry check runs first and takes precedence over
the shadow grammar — but only for patterns containing at least one `+`
segment: whenever some configured pattern with a `+` matches the topic,
`get_topic_type` returns DataUpdate with the device taken from the
matched pattern's first `+` position (a matching pattern without `+`
extracts no device and falls through). -/
theorem c9_telemetry_precedence_amended
    (tel : List Str) (pre topic p : Str)
    (hp : p ∈ tel) (hplus : "+".toList ∈ splitOn '/' p)
    (hm : segsMatchSpec (splitOn '/' p) (splitOn '/' topic) = true) :
    (∃ dev, findTelemetry tel topic = some dev
      ∧ getTopicType tel pre topic
          = TopicType.dataUpdate (splitDeviceId dev).1 (splitDeviceId dev).2)
    ∧ (∀ P T : List Str, ∀ dv : Str,
        matchSegs P T = some (some dv) → firstPlusCapture P T = some dv) := by
  constructor
  · obtain ⟨dv, hdv⟩ := segsMatch_plus_capture hm hplus
    obtain ⟨dev, hdev⟩ := findTelemetry_of_match hp hdv
    exact ⟨dev, hdev, by simp [getTopicType, hdev]⟩
  · intro P T dv h
    exact matchSegs_capture h

/-- Witness for C9's amended theorem at the default telemetry pattern. -/
theorem c9_witness :
    ("things/+/data".toList ∈ ["things/+/data".toList])
    ∧ ("+".toList ∈ splitOn '/' ("things/+/data".toList))
    ∧ (segsMatchSpec (splitOn '/' ("things/+/data".toList))
        (splitOn '/' ("things/dev9/data".toList)) = true)
    ∧ ((∃ dev, findTelemetry ["things/+/data".toList] ("things/dev9/data".toList) = some dev
        ∧ getTopicType ["things/+/data".toList] ("things/".toList) ("things/dev9/data".toList)
            = TopicType.dataUpdate (splitDeviceId dev).1 (splitDeviceId dev).2)
      ∧ (∀ P T : List Str, ∀ dv : Str,
          matchSegs P T = some (some dv) → firstPlusCapture P T = some dv)) :=
  ⟨by decide, by decide, by decide,
    c9_telemetry_precedence_amended ["things/+/data".toList] ("things/".toList)
      ("things/dev9/data".toList) ("things/+/data".toList)
      (by decide) (by decide) (by decide)⟩

end Forest

namespace Forest

/-! ## C6 : metric extraction -/

/-- C6 counterexample.  A three-element numeric array is accepted by the
code for a `LocationTuple` metric (only `value[0]` and `value[1]` are
read), whereas the claim's conversion table — `LocationTuple` from a
2-element numeric array, everything else type-incompatible and skipped —
would skip it. -/
theorem c6_counterexample :
    DataConfig.extract_metrics_from_json
        ⟨[⟨"/gps".toList, "loc".toList, .locationTuple⟩]⟩
        (.obj [("gps".toList, .arr [.num (.int 1), .num (.int 2), .num (.int 3)])])
      = [("loc".toList, .location ⟨1, 2⟩)]
    ∧ extractClaim
        ⟨[⟨"/gps".toList, "loc".toList, .locationTuple⟩]⟩
        (.obj [("gps".toList, .arr [.num (.int 1), .num (.int 2), .num (.int 3)])])
      = []
    ∧ DataConfig.extract_metrics_from_json
          ⟨[⟨"/gps".toList, "loc".toList, .locationTuple⟩]⟩
          (.obj [("gps".toList, .arr [.num (.int 1), .num (.int 2), .num (.int 3)])])
        ≠ extractClaim
          ⟨[⟨"/gps".toList, "loc".toList, .locationTuple⟩]⟩
          (.obj [("gps".toList, .arr [.num (.int 1), .num (.int 2), .num (.int 3)])]) := by
  refine ⟨by decide, by decide, by decide⟩

theorem convertValue_eq_amended (dt : DataType) (v : Value) :
    convertValue dt v = convertValueAmended dt v := by
  cases dt with
  | floatT => rfl
  | intT => rfl
  | locationObject => cases v <;> rfl
  | locationTuple =>
    cases v with
    | arr elems =>
      rcases elems with _ | ⟨a, _ | ⟨b, rest⟩⟩
      · rfl
      · simp only [convertValue, convertValueAmended]
        cases ha : a.asF64 <;> simp [Value.idxNat, Value.asF64, ha]
      · rfl
    | null => rfl
    | bool b => rfl
    | num n => rfl
    | str s => rfl
    | obj entries => rfl

/-- C6 amended.  For every config and JSON payload,
`extract_metrics_from_json` produces, in the order of the configured
metrics, one `(name, value)` pair per metric whose pointer resolves to a
compatible value — Float from any JSON number, Int from a JSON integer or
else a JSON number truncated toward zero, LocationObject from an object
with numeric `lat` and `long`, LocationTuple from an array whose *first
two* elements are numeric (extra elements are ignored) — and silently
skips every metric whose pointer is missing or whose value is
incompatible. -/
theorem c6_extraction_amended (c : DataConfig) (json_value : Value) :
    DataConfig.extract_metrics_from_json c json_value = extractAmended c json_value := by
  unfold DataConfig.extract_metrics_from_json extractAmended
  simp only [convertValue_eq_amended]

end Forest

namespace Forest

/-! ## C2 : effective data-config computation -/

theorem foldl_filter_eq {α β : Type} (p : α → Bool) (f : β → α → β)
    (l : List α) (init : β) :
    (l.filter p).foldl f init
      = l.foldl (fun acc a => if p a then f acc a else acc) init := by
  induction l generalizing init with
  | nil => rfl
  | cons a l ih =>
    by_cases hp : p a <;> simp [List.filter_cons, hp, ih]

theorem argStep_foldl_some (L : List DataConfigRow) (r0 : DataConfigRow) :
    ∃ e, L.foldl argStep (some r0) = some e ∧ (e = r0 ∨ e ∈ L)
      ∧ r0.device_pre.length ≤ e.device_pre.length
      ∧ ∀ r ∈ L, r.device_pre.length ≤ e.device_pre.length := by
  induction L generalizing r0 with
  | nil => exact ⟨r0, rfl, Or.inl rfl, le_refl _, by simp⟩
  | cons r L ih =>
    simp only [List.foldl_cons]
    by_cases hlt : r0.device_pre.length < r.device_pre.length
    · obtain ⟨e, he, hmem, hge, hall⟩ := ih r
      refine ⟨e, ?_, ?_, ?_, ?_⟩
      · simpa [argStep, hlt] using he
      · rcases hmem with h | h
        · exact Or.inr (h ▸ List.mem_cons_self r L)
        · exact Or.inr (List.mem_cons_of_mem r h)
      · exact le_trans (le_of_lt hlt) hge
      · intro r2 hr2
        rcases List.mem_cons.mp hr2 with h | h
        · exact h ▸ hge
        · exact hall r2 h
    · obtain ⟨e, he, hmem, hge, hall⟩ := ih r0
      refine ⟨e, ?_, ?_, hge, ?_⟩
      · simpa [argStep, hlt] using he
      · rcases hmem with h | h
        · exact Or.inl h
        · exact Or.inr (List.mem_cons_of_mem r h)
      · intro r2 hr2
        rcases List.mem_cons.mp hr2 with h | h
        · exact h ▸ le_trans (Nat.le_of_not_lt hlt) hge
        · exact hall r2 h

theorem argStep_foldl_none {L : List DataConfigRow}
    (h : L.foldl argStep none = none) : L = [] := by
  cases L with
  | nil => rfl
  | cons r L =>
    exfalso
    obtain ⟨e, he, -, -, -⟩ := argStep_foldl_some L r
    rw [List.foldl_cons] at h
    have : argStep none r = some r := rfl
    rw [this, he] at h
    cases h

theorem argStep_foldl_spec {L : List DataConfigRow} {e : DataConfigRow}
    (h : L.foldl argStep none = some e) :
    e ∈ L ∧ ∀ r ∈ L, r.device_pre.length ≤ e.device_pre.length := by
  cases L with
  | nil => cases h
  | cons r L =>
    rw [List.foldl_cons] at h
    have h0 : argStep none r = some r := rfl
    rw [h0] at h
    obtain ⟨e2, he2, hmem, hge, hall⟩ := argStep_foldl_some L r
    rw [he2] at h
    cases h
    constructor
    · rcases hmem with h | h
      · exact h ▸ List.mem_cons_self r L
      · exact List.mem_cons_of_mem r h
    · intro r2 hr2
      rcases List.mem_cons.mp hr2 with h | h
      · exact h ▸ hge
      · exact hall r2 h

theorem bestfold_eq_longestMatch (rows : List DataConfigRow) (t : TenantId) (d : Str) :
    (rows.filter fun r => r.tenant_id = t ∧ ¬ r.device_pre = []).foldl (bestStep d) none
      = longestMatch rows t d := by
  unfold longestMatch matchingRows
  rw [foldl_filter_eq, foldl_filter_eq]
  congr 1
  funext acc a
  by_cases h1 : a.tenant_id = t
  · by_cases h2 : a.device_pre = []
    · simp [h1, h2]
    · by_cases h3 : a.device_pre.isPrefixOf d <;>
        simp [bestStep, h1, h2, h3]
  · simp [h1]

end Forest

namespace Forest

theorem replaceOrPush_of_not_mem {L : List MetricConfig} {om : MetricConfig}
    (h : om.name ∉ L.map fun m => m.name) :
    replaceOrPush L om = L ++ [om] := by
  induction L with
  | nil => rfl
  | cons m ms ih =>
    simp only [List.map_cons, List.mem_cons, not_or] at h
    have hne : ¬ m.name = om.name := fun he => h.1 he.symm
    simp [replaceOrPush, hne, ih h.2]

theorem map_subst_id {L : List MetricConfig} {om : MetricConfig}
    (h : om.name ∉ L.map fun m => m.name) :
    (L.map fun m => if m.name = om.name then om else m) = L := by
  rw [List.map_congr_left, List.map_id]
  intro m hm
  have hne : ¬ m.name = om.name := by
    intro he
    exact h (he ▸ List.mem_map_of_mem (fun m => m.name) hm)
  simp [hne]

theorem replaceOrPush_of_mem {L : List MetricConfig} {om : MetricConfig}
    (hnd : (L.map fun m => m.name).Nodup) (h : om.name ∈ L.map fun m => m.name) :
    replaceOrPush L om = L.map fun m => if m.name = om.name then om else m := by
  induction L with
  | nil => cases h
  | cons m ms ih =>
    simp only [List.map_cons, List.nodup_cons] at hnd
    by_cases he : m.name = om.name
    · have hnot : om.name ∉ ms.map fun m2 => m2.name := he ▸ hnd.1
      simp [replaceOrPush, he, map_subst_id hnot]
    · have hmem : om.name ∈ ms.map fun m2 => m2.name := by
        rcases List.mem_cons.mp h with h | h
        · exact absurd h.symm he
        · exact h
      simp [replaceOrPush, he, ih hnd.2 hmem]

theorem subst_preserves_names (L : List MetricConfig) (om : MetricConfig) :
    ((L.map fun m => if m.name = om.name then om else m).map fun m => m.name)
      = L.map fun m => m.name := by
  rw [List.map_map]
  apply List.map_congr_left
  intro m _
  by_cases he : m.name = om.name <;> simp [Function.comp, he]

theorem all_map_names {L : List MetricConfig} {f : MetricConfig → MetricConfig}
    (hf : ∀ m, (f m).name = m.name) (p : Str → Bool) :
    ((L.map f).all fun m => p m.name) = L.all fun m => p m.name := by
  induction L with
  | nil => rfl
  | cons m ms ih => simp [hf m, ih]

end Forest

namespace Forest

theorem foldl_replaceOrPush_spec (D : List MetricConfig) :
    ∀ T : List MetricConfig,
    (T.map fun m => m.name).Nodup → (D.map fun m => m.name).Nodup →
    D.foldl replaceOrPush T
      = (T.map fun m =>
          match D.find? (fun om => om.name = m.name) with
          | some om => om
          | none => m)
        ++ D.filter fun om => T.all fun m => ¬ m.name = om.name := by
  induction D with
  | nil =>
    intro T _ _
    simp
  | cons om D' ih =>
    intro T hT hD
    simp only [List.map_cons, List.nodup_cons] at hD
    have homD : om.name ∉ D'.map fun m => m.name := hD.1
    have hD' := hD.2
    have hfind_none : D'.find? (fun o => o.name = om.name) = none := by
      rw [List.find?_eq_none]
      intro o ho
      simp only [decide_eq_true_eq]
      intro he
      exact homD (he ▸ List.mem_map_of_mem (fun m => m.name) ho)
    rw [List.foldl_cons]
    by_cases hmem : om.name ∈ T.map fun m => m.name
    · rw [replaceOrPush_of_mem hT hmem]
      have hTsub : ((T.map fun m => if m.name = om.name then om else m).map
          fun m => m.name).Nodup := by
        rw [subst_preserves_names]; exact hT
      rw [ih _ hTsub hD']
      have hallF : (T.all fun m => ¬ m.name = om.name) = false := by
        obtain ⟨m0, hm0, hname⟩ := List.mem_map.mp hmem
        apply Bool.eq_false_iff.mpr
        intro hAll
        rw [List.all_eq_true] at hAll
        have := hAll m0 hm0
        simp only [decide_eq_true_eq] at this
        exact this hname
      congr 1
      · rw [List.map_map]
        apply List.map_congr_left
        intro m _
        by_cases he : om.name = m.name
        · have hc : m.name = om.name := he.symm
          simp only [Function.comp, hc, if_true, ite_true]
          rw [List.find?_cons_of_pos _ (by simp [he]), hfind_none]
        · have hc : ¬ m.name = om.name := fun h2 => he h2.symm
          simp only [Function.comp, hc, if_false, ite_false]
          rw [List.find?_cons_of_neg _ (by simp [he])]
      · rw [List.filter_cons, if_neg (by rw [hallF]; simp)]
        apply List.filter_congr
        intro om2 _
        have hpt : ∀ m : MetricConfig,
            ((fun m2 => if m2.name = om.name then om else m2) m).name = m.name := by
          intro m
          by_cases he : m.name = om.name
          · simp only [he, if_true, ite_true]
          · simp only [he, if_false, ite_false]
        exact all_map_names hpt (fun nm => decide ¬ nm = om2.name)
    · rw [replaceOrPush_of_not_mem hmem]
      have hTnames : ((T ++ [om]).map fun m => m.name).Nodup := by
        rw [List.map_append]
        rw [List.nodup_append]
        refine ⟨hT, List.nodup_singleton _, ?_⟩
        intro a ha hb
        simp only [List.map_cons, List.map_nil, List.mem_singleton] at hb
        exact hmem (hb ▸ ha)
      rw [ih _ hTnames hD']
      have hsub_om :
          (match D'.find? (fun o => o.name = om.name) with
            | some o => o
            | none => om) = om := by
        rw [hfind_none]
      have hmap : ((T ++ [om]).map fun m =>
          match D'.find? (fun o => o.name = m.name) with
          | some o => o
          | none => m)
          = (T.map fun m =>
              match (om :: D').find? (fun o => o.name = m.name) with
              | some o => o
              | none => m) ++ [om] := by
        rw [List.map_append]
        congr 1
        · apply List.map_congr_left
          intro m hm
          have hc : ¬ om.name = m.name := by
            intro he
            exact hmem (he ▸ List.mem_map_of_mem (fun m2 => m2.name) hm)
          rw [List.find?_cons_of_neg _ (by simp [hc])]
        · simp only [List.map_cons, List.map_nil]
          rw [hsub_om]
      have hfilter : D'.filter (fun om2 => (T ++ [om]).all fun m => ¬ m.name = om2.name)
          = D'.filter fun om2 => T.all fun m => ¬ m.name = om2.name := by
        apply List.filter_congr
        intro om2 hom2
        have hne : ¬ om.name = om2.name := by
          intro he
          exact homD (he ▸ List.mem_map_of_mem (fun m => m.name) hom2)
        simp [List.all_append, hne]
      have hfilter2 : (om :: D').filter (fun om2 => T.all fun m => ¬ m.name = om2.name)
          = om :: D'.filter fun om2 => T.all fun m => ¬ m.name = om2.name := by
        rw [List.filter_cons, if_pos]
        simp only [List.all_eq_true, decide_eq_true_eq]
        intro m hm he
        exact hmem (he ▸ List.mem_map_of_mem (fun m2 => m2.name) hm)
      rw [hmap, hfilter, hfilter2, List.append_assoc, List.singleton_append]

/-- `merge_with` implements the spec's merge rule when metric names are
unique within each config (serde-level configs never repeat a name). -/
theorem merge_with_eq_mergeSpec (a b : DataConfig)
    (ha : (a.metrics.map fun m => m.name).Nodup)
    (hb : (b.metrics.map fun m => m.name).Nodup) :
    a.merge_with b = mergeSpec a b := by
  unfold DataConfig.merge_with mergeSpec
  congr 1
  exact foldl_replaceOrPush_spec b.metrics a.metrics ha hb

end Forest

namespace Forest

/-- C2 counterexample.  The claim's merge rule fails when a stored config
repeats a metric name (nothing prevents storing one: the metrics field is
a plain array persisted as text).  With the tenant-wide config empty and
a device config holding two metrics that share the name `t`, the claim's
rule — replace same-named tenant metrics, then append the device config's
remaining metrics in order — yields both metrics, but `merge_with`'s
find-and-replace keeps only the second. -/
theorem c2_counterexample :
    get_data_config
        [⟨.default, [], ⟨[]⟩⟩,
         ⟨.default, "dev".toList, ⟨[⟨"/a".toList, "t".toList, .floatT⟩,
                                    ⟨"/b".toList, "t".toList, .intT⟩]⟩⟩]
        .default (some ("dev1".toList))
      = some ⟨[⟨"/b".toList, "t".toList, .intT⟩]⟩
    ∧ effectiveConfigSpec
        (tenantConfig
          [⟨.default, [], ⟨[]⟩⟩,
           ⟨.default, "dev".toList, ⟨[⟨"/a".toList, "t".toList, .floatT⟩,
                                      ⟨"/b".toList, "t".toList, .intT⟩]⟩⟩]
          .default)
        ((longestMatch
          [⟨.default, [], ⟨[]⟩⟩,
           ⟨.default, "dev".toList, ⟨[⟨"/a".toList, "t".toList, .floatT⟩,
                                      ⟨"/b".toList, "t".toList, .intT⟩]⟩⟩]
          .default ("dev1".toList)).map fun r => r.config)
      = some ⟨[⟨"/a".toList, "t".toList, .floatT⟩, ⟨"/b".toList, "t".toList, .intT⟩]⟩
    ∧ get_data_config
        [⟨.default, [], ⟨[]⟩⟩,
         ⟨.default, "dev".toList, ⟨[⟨"/a".toList, "t".toList, .floatT⟩,
                                    ⟨"/b".toList, "t".toList, .intT⟩]⟩⟩]
        .default (some ("dev1".toList))
      ≠ effectiveConfigSpec
          (tenantConfig
            [⟨.default, [], ⟨[]⟩⟩,
             ⟨.default, "dev".toList, ⟨[⟨"/a".toList, "t".toList, .floatT⟩,
                                        ⟨"/b".toList, "t".toList, .intT⟩]⟩⟩]
            .default)
          ((longestMatch
            [⟨.default, [], ⟨[]⟩⟩,
             ⟨.default, "dev".toList, ⟨[⟨"/a".toList, "t".toList, .floatT⟩,
                                        ⟨"/b".toList, "t".toList, .intT⟩]⟩⟩]
            .default ("dev1".toList)).map fun r => r.config) := by
  refine ⟨by decide, by decide, by decide⟩

/-- C2.  For every row set whose per-tenant configs have distinct metric
names, `get_data_config(T, Some(D))` is the §4.1 effective config: the
merge (replace same-named tenant metrics, append the device config's
remaining metrics in order — `mergeSpec`) of the tenant-wide config with
the stored device config selected by `longestMatch`; each alone when only
one exists, `none` when neither does.  `longestMatch` is exactly "the
stored device config whose non-empty prefix is the longest prefix of D":
when it returns a row, that row is stored, tenant-scoped, non-empty, a
prefix of D, and of maximal prefix length among all such rows; when it
returns none, no stored row qualifies. -/
theorem c2_get_data_config_effective
    (rows : List DataConfigRow) (t : TenantId) (d : Str)
    (hnames : ∀ r ∈ rows, r.tenant_id = t → ((r.config.metrics.map fun m => m.name).Nodup)) :
    (get_data_config rows t (some d)
      = effectiveConfigSpec (tenantConfig rows t)
          ((longestMatch rows t d).map fun r => r.config))
    ∧ (∀ e, longestMatch rows t d = some e →
        e ∈ rows ∧ e.tenant_id = t ∧ ¬ e.device_pre = []
        ∧ e.device_pre.isPrefixOf d = true
        ∧ ∀ r ∈ rows, r.tenant_id = t → ¬ r.device_pre = [] →
            r.device_pre.isPrefixOf d = true →
            r.device_pre.length ≤ e.device_pre.length)
    ∧ (longestMatch rows t d = none →
        ∀ r ∈ rows, r.tenant_id = t → ¬ r.device_pre = [] →
          ¬ r.device_pre.isPrefixOf d = true) := by
  have hunpack : ∀ {e : DataConfigRow}, longestMatch rows t d = some e →
      (e ∈ rows ∧ e.tenant_id = t ∧ ¬ e.device_pre = []
        ∧ e.device_pre.isPrefixOf d = true)
      ∧ ∀ r ∈ rows, r.tenant_id = t → ¬ r.device_pre = [] →
          r.device_pre.isPrefixOf d = true →
          r.device_pre.length ≤ e.device_pre.length := by
    intro e he
    unfold longestMatch at he
    obtain ⟨hmem, hmax⟩ := argStep_foldl_spec he
    unfold matchingRows at hmem hmax
    simp only [List.mem_filter, decide_eq_true_eq] at hmem
    refine ⟨⟨hmem.1, hmem.2.1, hmem.2.2.1, hmem.2.2.2⟩, ?_⟩
    intro r hr h1 h2 h3
    apply hmax
    simp only [List.mem_filter, decide_eq_true_eq]
    exact ⟨hr, h1, h2, h3⟩
  refine ⟨?_, ?_, ?_⟩
  · unfold get_data_config
    dsimp only
    rw [bestfold_eq_longestMatch]
    cases hl : longestMatch rows t d with
    | none =>
      cases htc : tenantConfig rows t <;> simp [effectiveConfigSpec, htc]
    | some e =>
      cases htc : tenantConfig rows t with
      | none => simp [effectiveConfigSpec, htc]
      | some tc =>
        obtain ⟨rt, hfind, hrt⟩ := Option.map_eq_some'.mp htc
        have hrt_mem : rt ∈ rows := List.mem_of_find?_eq_some hfind
        have hrt_pred := List.find?_some hfind
        simp only [decide_eq_true_eq] at hrt_pred
        have hndT : (tc.metrics.map fun m => m.name).Nodup := by
          rw [← hrt]
          exact hnames rt hrt_mem hrt_pred.1
        obtain ⟨⟨he_mem, he_t, -, -⟩, -⟩ := hunpack hl
        have hndD : (e.config.metrics.map fun m => m.name).Nodup :=
          hnames e he_mem he_t
        simp [effectiveConfigSpec, htc, merge_with_eq_mergeSpec tc e.config hndT hndD]
  · intro e he
    obtain ⟨⟨h1, h2, h3, h4⟩, h5⟩ := hunpack he
    exact ⟨h1, h2, h3, h4, h5⟩
  · intro hnone r hr h1 h2 h3
    unfold longestMatch at hnone
    have hempty : matchingRows rows t d = [] := argStep_foldl_none hnone
    have : r ∈ matchingRows rows t d := by
      simp only [matchingRows, List.mem_filter, decide_eq_true_eq]
      exact ⟨hr, h1, h2, h3⟩
    rw [hempty] at this
    cases this

/-- Witness for C2 at a concrete store: a tenant-wide config and two
device rows whose prefixes both start the device id. -/
theorem c2_witness :
    (∀ r ∈ [(⟨.default, [], ⟨[⟨"/t".toList, "t".toList, .floatT⟩]⟩⟩ : DataConfigRow),
            ⟨.default, "dev".toList, ⟨[⟨"/t".toList, "t".toList, .intT⟩]⟩⟩,
            ⟨.default, "devA".toList, ⟨[⟨"/h".toList, "h".toList, .floatT⟩]⟩⟩],
        r.tenant_id = DefaultString.default →
          ((r.config.metrics.map fun m => m.name).Nodup))
    ∧ get_data_config
        [⟨.default, [], ⟨[⟨"/t".toList, "t".toList, .floatT⟩]⟩⟩,
         ⟨.default, "dev".toList, ⟨[⟨"/t".toList, "t".toList, .intT⟩]⟩⟩,
         ⟨.default, "devA".toList, ⟨[⟨"/h".toList, "h".toList, .floatT⟩]⟩⟩]
        .default (some ("devA1".toList))
      = effectiveConfigSpec
          (tenantConfig
            [⟨.default, [], ⟨[⟨"/t".toList, "t".toList, .floatT⟩]⟩⟩,
             ⟨.default, "dev".toList, ⟨[⟨"/t".toList, "t".toList, .intT⟩]⟩⟩,
             ⟨.default, "devA".toList, ⟨[⟨"/h".toList, "h".toList, .floatT⟩]⟩⟩]
            .default)
          ((longestMatch
            [⟨.default, [], ⟨[⟨"/t".toList, "t".toList, .floatT⟩]⟩⟩,
             ⟨.default, "dev".toList, ⟨[⟨"/t".toList, "t".toList, .intT⟩]⟩⟩,
             ⟨.default, "devA".toList, ⟨[⟨"/h".toList, "h".toList, .floatT⟩]⟩⟩]
            .default ("devA1".toList)).map fun r => r.config) := by
  refine ⟨by decide, ?_⟩
  exact (c2_get_data_config_effective
    [⟨.default, [], ⟨[⟨"/t".toList, "t".toList, .floatT⟩]⟩⟩,
     ⟨.default, "dev".toList, ⟨[⟨"/t".toList, "t".toList, .intT⟩]⟩⟩,
     ⟨.default, "devA".toList, ⟨[⟨"/h".toList, "h".toList, .floatT⟩]⟩⟩]
    .default ("devA1".toList) (by decide)).1

end Forest

namespace Forest

/-! ## C10 : `TimeSeries` representation invariants -/

theorem insertPoint_length {T : Type} (ts : Nat) (v : T) :
    ∀ (tsl : List Nat) (vsl : List T), tsl.length = vsl.length →
      (insertPoint ts v tsl vsl).1.length = (insertPoint ts v tsl vsl).2.length := by
  intro tsl
  induction tsl with
  | nil => intro vsl _; rfl
  | cons t tsl ih =>
    intro vsl hlen
    cases vsl with
    | nil => rfl
    | cons w vsl =>
      simp only [List.length_cons, Nat.succ.injEq] at hlen
      by_cases h1 : ts < t
      · simp [insertPoint, h1, hlen]
      · by_cases h2 : ts = t
        · simp [insertPoint, h1, h2, hlen]
        · simp only [insertPoint, h1, h2, if_false, ite_false, List.length_cons]
          rw [ih vsl hlen]

theorem insertPoint_mem {T : Type} (ts : Nat) (v : T) :
    ∀ (tsl : List Nat) (vsl : List T) (x : Nat),
      x ∈ (insertPoint ts v tsl vsl).1 → x = ts ∨ x ∈ tsl := by
  intro tsl
  induction tsl with
  | nil =>
    intro vsl x hx
    simp only [insertPoint, List.mem_singleton] at hx
    exact Or.inl hx
  | cons t tsl ih =>
    intro vsl x hx
    cases vsl with
    | nil =>
      simp only [insertPoint, List.mem_singleton] at hx
      exact Or.inl hx
    | cons w vsl =>
      by_cases h1 : ts < t
      · simp only [insertPoint, h1, if_true, ite_true, List.mem_cons] at hx
        rcases hx with h | h | h
        · exact Or.inl h
        · exact Or.inr (List.mem_cons.mpr (Or.inl h))
        · exact Or.inr (List.mem_cons.mpr (Or.inr h))
      · by_cases h2 : ts = t
        · subst h2
          simp only [insertPoint, lt_self_iff_false, if_false, ite_false,
            eq_self_iff_true, if_true, ite_true] at hx
          exact Or.inr hx
        · simp only [insertPoint, h1, h2, if_false, ite_false, List.mem_cons] at hx
          rcases hx with h | h
          · exact Or.inr (List.mem_cons.mpr (Or.inl h))
          · rcases ih vsl x h with h | h
            · exact Or.inl h
            · exact Or.inr (List.mem_cons.mpr (Or.inr h))

theorem insertPoint_sorted {T : Type} (ts : Nat) (v : T) :
    ∀ (tsl : List Nat) (vsl : List T), tsl.Pairwise (· < ·) →
      (insertPoint ts v tsl vsl).1.Pairwise (· < ·) := by
  intro tsl
  induction tsl with
  | nil => intro vsl _; simp [insertPoint]
  | cons t tsl ih =>
    intro vsl hs
    cases vsl with
    | nil => simp [insertPoint]
    | cons w vsl =>
      have hhead : ∀ y ∈ tsl, t < y := fun y hy => (List.pairwise_cons.mp hs).1 y hy
      have htail : tsl.Pairwise (· < ·) := (List.pairwise_cons.mp hs).2
      by_cases h1 : ts < t
      · simp only [insertPoint, h1, if_true, ite_true]
        refine List.pairwise_cons.mpr ⟨?_, hs⟩
        intro y hy
        rcases List.mem_cons.mp hy with h | h
        · exact h ▸ h1
        · exact lt_trans h1 (hhead y h)
      · by_cases h2 : ts = t
        · simpa [insertPoint, h1, h2] using hs
        · simp only [insertPoint, h1, h2, if_false, ite_false]
          refine List.pairwise_cons.mpr ⟨?_, ih vsl htail⟩
          intro y hy
          rcases insertPoint_mem ts v tsl vsl y hy with h | h
          · have : t ≤ ts := Nat.le_of_not_lt h1
            exact h ▸ lt_of_le_of_ne this (fun he => h2 he.symm)
          · exact hhead y h

theorem insertPoint_existing {T : Type} (ts : Nat) (v : T) :
    ∀ (tsl : List Nat) (vsl : List T), tsl.Pairwise (· < ·) →
      tsl.length = vsl.length → ts ∈ tsl →
      (insertPoint ts v tsl vsl).1 = tsl := by
  intro tsl
  induction tsl with
  | nil => intro vsl _ _ hmem; cases hmem
  | cons t tsl ih =>
    intro vsl hs hlen hmem
    cases vsl with
    | nil => cases hlen
    | cons w vsl =>
      simp only [List.length_cons, Nat.succ.injEq] at hlen
      have hhead : ∀ y ∈ tsl, t < y := fun y hy => (List.pairwise_cons.mp hs).1 y hy
      have htail : tsl.Pairwise (· < ·) := (List.pairwise_cons.mp hs).2
      by_cases h1 : ts < t
      · exfalso
        rcases List.mem_cons.mp hmem with h | h
        · exact absurd (h ▸ h1) (lt_irrefl t)
        · exact absurd (lt_trans h1 (hhead ts h)) (lt_irrefl ts)
      · by_cases h2 : ts = t
        · simp [insertPoint, h1, h2]
        · have hmem2 : ts ∈ tsl := by
            rcases List.mem_cons.mp hmem with h | h
            · exact absurd h h2
            · exact h
          simp only [insertPoint, h1, h2, if_false, ite_false, List.cons.injEq, true_and]
          exact ih vsl htail hlen hmem2

theorem insertPoint_lookup {T : Type} (ts : Nat) (v : T) :
    ∀ (tsl : List Nat) (vsl : List T), tsl.Pairwise (· < ·) →
      ((insertPoint ts v tsl vsl).1.zip (insertPoint ts v tsl vsl).2).find?
          (fun p => p.1 = ts) = some (ts, v) := by
  intro tsl
  induction tsl with
  | nil => intro vsl _; simp [insertPoint]
  | cons t tsl ih =>
    intro vsl hs
    have htail : tsl.Pairwise (· < ·) := (List.pairwise_cons.mp hs).2
    cases vsl with
    | nil => simp [insertPoint]
    | cons w vsl =>
      by_cases h1 : ts < t
      · simp [insertPoint, h1]
      · by_cases h2 : ts = t
        · simp [insertPoint, h1, h2]
        · have hne : ¬ t = ts := fun he => h2 he.symm
          simp only [insertPoint, h1, h2, if_false, ite_false, List.zip_cons_cons]
          rw [List.find?_cons_of_neg _ (by simp [hne])]
          exact ih vsl htail

theorem add_point_WF {T : Type} (s : TimeSeries T) (ts : Nat) (v : T)
    (h : s.WF) : (s.add_point ts v).WF :=
  ⟨insertPoint_sorted ts v s.timestamps s.values h.1,
   insertPoint_length ts v s.timestamps s.values h.2⟩

theorem merge_foldl_WF {T : Type} (l : List (Nat × T)) :
    ∀ s : TimeSeries T, s.WF →
      (l.foldl (fun acc p => acc.add_point p.1 p.2) s).WF := by
  induction l with
  | nil => intro s h; exact h
  | cons p l ih =>
    intro s h
    exact ih _ (add_point_WF s p.1 p.2 h)

/-- C10.  Every `TimeSeries` reachable through `new`, `add_point`,
`merge`, `trim`, `keep_last` and `clear` keeps its timestamps strictly
increasing with exactly one value per timestamp; and `add_point` at an
already-present timestamp leaves the timestamps unchanged and replaces
the stored value at that timestamp. -/
theorem c10_timeseries_invariants :
    (∀ T : Type, (TimeSeries.new : TimeSeries T).WF)
    ∧ (∀ (T : Type) (s : TimeSeries T) (ts : Nat) (v : T), s.WF → (s.add_point ts v).WF)
    ∧ (∀ (T : Type) (s o : TimeSeries T), s.WF → (s.merge o).WF)
    ∧ (∀ (T : Type) (s : TimeSeries T) (mn mx : Nat), s.WF → (s.trim mn mx).WF)
    ∧ (∀ (T : Type) (s : TimeSeries T) (n : Nat), s.WF → (s.keep_last n).WF)
    ∧ (∀ (T : Type) (s : TimeSeries T), s.clear.WF)
    ∧ (∀ (T : Type) (s : TimeSeries T) (ts : Nat) (v : T), s.WF → ts ∈ s.timestamps →
        (s.add_point ts v).timestamps = s.timestamps
        ∧ (s.add_point ts v).get_value_for_timestamp ts = some v) := by
  refine ⟨?_, ?_, ?_, ?_, ?_, ?_, ?_⟩
  · intro T
    exact ⟨List.Pairwise.nil, rfl⟩
  · intro T s ts v h
    exact add_point_WF s ts v h
  · intro T s o h
    exact merge_foldl_WF _ s h
  · intro T s mn mx h
    constructor
    · exact h.1.sublist (List.Sublist.trans (List.drop_sublist _ _) (List.take_sublist _ _))
    · simp [TimeSeries.trim, h.2]
  · intro T s n h
    unfold TimeSeries.keep_last
    by_cases hn : n < s.timestamps.length
    · rw [if_pos hn]
      constructor
      · exact h.1.sublist (List.drop_sublist _ _)
      · simp [h.2]
    · rw [if_neg hn]
      exact h
  · intro T s
    exact ⟨List.Pairwise.nil, rfl⟩
  · intro T s ts v h hmem
    constructor
    · exact insertPoint_existing ts v s.timestamps s.values h.1 h.2 hmem
    · simp only [TimeSeries.get_value_for_timestamp, TimeSeries.add_point]
      rw [insertPoint_lookup ts v s.timestamps s.values h.1]
      rfl

/-- Witness for C10 at a concrete integer series. -/
theorem c10_witness :
    (TimeSeries.mk [3, 5] [(30 : Int), 50]).WF
    ∧ (3 ∈ (TimeSeries.mk [3, 5] [(30 : Int), 50]).timestamps)
    ∧ ((TimeSeries.mk [3, 5] [(30 : Int), 50]).add_point 4 40).WF
    ∧ ((TimeSeries.mk [3, 5] [(30 : Int), 50]).add_point 3 99).timestamps = [3, 5]
    ∧ ((TimeSeries.mk [3, 5] [(30 : Int), 50]).add_point 3 99).get_value_for_timestamp 3
        = some 99 := by
  have hwf : (TimeSeries.mk [3, 5] [(30 : Int), 50]).WF := by
    constructor
    · decide
    · rfl
  refine ⟨hwf, by decide, ?_, ?_, ?_⟩
  · exact c10_timeseries_invariants.2.1 Int (TimeSeries.mk [3, 5] [30, 50]) 4 40 hwf
  · exact (c10_timeseries_invariants.2.2.2.2.2.2 Int
      (TimeSeries.mk [3, 5] [30, 50]) 3 99 hwf (by decide)).1
  · exact (c10_timeseries_invariants.2.2.2.2.2.2 Int
      (TimeSeries.mk [3, 5] [30, 50]) 3 99 hwf (by decide)).2

end Forest

namespace Forest

/-! ## C1 : the stored delta is recomputed on every shadow update -/

theorem objGet_of_mem_nodup {entries : List (Str × Value)} {k : Str} {v : Value}
    (hnd : (entries.map fun kv => kv.1).Nodup) (hmem : (k, v) ∈ entries) :
    objGet entries k = some v := by
  induction entries with
  | nil => cases hmem
  | cons kv0 rest ih =>
    obtain ⟨k0, v0⟩ := kv0
    simp only [List.map_cons, List.nodup_cons] at hnd
    rcases List.mem_cons.mp hmem with h | h
    · cases h
      simp [objGet, List.find?_cons_of_pos]
    · have hkne : ¬ k0 = k := by
        intro he
        exact hnd.1 (he ▸ List.mem_map_of_mem (fun kv => kv.1) h)
      have hstep : List.find? (fun kv : Str × Value => kv.1 = k) ((k0, v0) :: rest)
          = List.find? (fun kv : Str × Value => kv.1 = k) rest :=
        List.find?_cons_of_neg _ (by simp [hkne])
      simp only [objGet, hstep]
      exact ih hnd.2 h

theorem deltaEntries_self {es : List (Str × Value)}
    (hnd : (es.map fun kv => kv.1).Nodup) :
    ∀ sub : List (Str × Value), (∀ kv ∈ sub, kv ∈ es) →
      deltaEntries (.obj es) sub = [] := by
  intro sub
  induction sub with
  | nil => intro _; rfl
  | cons kv rest ih =>
    intro hsub
    obtain ⟨k, dv⟩ := kv
    have hget : objGet es k = some dv :=
      objGet_of_mem_nodup hnd (hsub (k, dv) (List.mem_cons_self _ _))
    have hrest : ∀ kv ∈ rest, kv ∈ es := fun kv hkv => hsub kv (List.mem_cons_of_mem _ hkv)
    simp only [deltaEntries, hget, if_pos rfl, ite_true]
    exact ih hrest

/-- The delta of a document against itself is `null` (serde documents
have distinct keys). -/
theorem deltaFn_self (r : Value) (h : topKeysNodup r) : deltaFn r r = .null := by
  cases r with
  | null => rfl
  | bool b => simp [deltaFn]
  | num n => simp [deltaFn]
  | str s => simp [deltaFn]
  | arr elems => simp [deltaFn]
  | obj es =>
    have hnd : (es.map fun kv => kv.1).Nodup := h
    simp only [deltaFn]
    rw [deltaEntries_self hnd es (fun kv hkv => hkv)]
    simp

/-- C1.  For every shadow `S` and matching update `U`, `Shadow::update`
succeeds and the stored delta equals the §4.2 delta function applied to
the updated reported and desired documents (it is recomputed on every
update); and whenever the updated desired document equals the updated
reported one, that stored delta is `null`. -/
theorem c1_shadow_update_delta (s : Shadow) (u : StateUpdateDocument) (now : Nat)
    (hdev : u.device_id = s.device_id) (hname : u.shadow_name = s.shadow_name)
    (hten : u.tenant_id = s.tenant_id) :
    ∃ s2, s.update u now = .ok s2
      ∧ s2.state.delta = deltaFn s2.state.reported s2.state.desired
      ∧ (topKeysNodup s2.state.reported → s2.state.desired = s2.state.reported →
          s2.state.delta = .null) := by
  unfold Shadow.update
  rw [if_neg (fun hc => hc hdev), if_neg (fun hc => hc hname), if_neg (fun hc => hc hten)]
  refine ⟨_, rfl, rfl, ?_⟩
  intro hnd heq
  dsimp only at heq hnd ⊢
  rw [heq]
  exact deltaFn_self _ hnd

/-- Witness for C1 at the concrete thermostat example. -/
theorem c1_witness :
    (exampleUpdate.device_id = exampleShadow.device_id)
    ∧ (exampleUpdate.shadow_name = exampleShadow.shadow_name)
    ∧ (exampleUpdate.tenant_id = exampleShadow.tenant_id)
    ∧ (∃ s2, exampleShadow.update exampleUpdate 100 = .ok s2
        ∧ s2.state.delta = deltaFn s2.state.reported s2.state.desired
        ∧ (topKeysNodup s2.state.reported → s2.state.desired = s2.state.reported →
            s2.state.delta = .null)) :=
  ⟨by decide, by decide, by decide,
    c1_shadow_update_delta exampleShadow exampleUpdate 100
      (by decide) (by decide) (by decide)⟩

end Forest
